import Mathlib

/-!
# Verification of the searchbox suggestion / result-normalization utilities

Shallow embedding of the utility module (`getSuggestions`, `parseField`,
`populateSuggestionsList`, `extractSuggestion`, `flatten`, `parseHits`,
`highlightResults`, `getNormalizedField`, `getNormalizedWeights`,
`parseCompAggToHits`) of the searchbox repository.

JavaScript values are modelled by the inductive type `JValue` (`undefined`
and `null` are separate constructors; numbers are modelled as integers, so
`NaN`/`Infinity` and fractional values are outside the model).  Code that can
throw a `TypeError` (property access on `null`/`undefined`) is modelled in
the `JsM` monad (`Except Unit`); `.error ()` is a thrown exception.

Modelling notes, applying uniformly:
* property lookup ignores inherited prototype properties (e.g. `length`,
  string methods); own properties of objects, and index properties of
  arrays and strings, are modelled;
* `===` on primitive values is modelled by the structural equality `jbeq`,
  which coincides with JavaScript semantics there;
  `Array.prototype.includes` (SameValueZero) is modelled by `containsVal`,
  which accounts for the reference identity of arrays — see its doc
  comment;
* string operations (`trim`, `split`, `toLowerCase`, `includes`,
  `substring`) are modelled character-wise over the string's character
  list, which agrees with JavaScript for the basic-plane text involved here.
-/

inductive JValue where
  | undef
  | null
  | bool (b : Bool)
  | num (n : Int)
  | str (s : String)
  | arr (xs : List JValue)
  | obj (fs : List (String × JValue))
  deriving Repr

abbrev JsM := Except Unit

mutual
/-- Structural equality on `JValue`, modelling `===` / SameValueZero. -/
def jbeq : JValue → JValue → Bool
  | .undef, .undef => true
  | .null, .null => true
  | .bool a, .bool b => a = b
  | .num a, .num b => a = b
  | .str a, .str b => a = b
  | .arr xs, .arr ys => jbeqList xs ys
  | .obj fs, .obj gs => jbeqFields fs gs
  | _, _ => false
def jbeqList : List JValue → List JValue → Bool
  | [], [] => true
  | x :: xs, y :: ys => jbeq x y && jbeqList xs ys
  | _, _ => false
def jbeqFields : List (String × JValue) → List (String × JValue) → Bool
  | [], [] => true
  | (k, v) :: fs, (l, w) :: gs => k = l && jbeq v w && jbeqFields fs gs
  | _, _ => false
end

/-- JavaScript truthiness. `[]` and `{}` are truthy; `0`, `""`, `null`,
`undefined`, `false` are falsy. -/
def truthy : JValue → Bool
  | .undef => false
  | .null => false
  | .bool b => b
  | .num n => n != 0
  | .str s => s ≠ ""
  | .arr _ => true
  | .obj _ => true

/-- `typeof v === 'object'` — true for `null`, arrays and plain objects. -/
def typeofObject : JValue → Bool
  | .null => true
  | .arr _ => true
  | .obj _ => true
  | _ => false

/-- Own-property lookup in an object's field list (first occurrence);
missing keys give `undefined`. -/
def getField (fs : List (String × JValue)) (k : String) : JValue :=
  match fs.find? (fun kv => kv.1 = k) with
  | some kv => kv.2
  | none => (.undef)

/-- Property assignment `o[k] = v`: replaces the value in place when the key
exists (JS keeps the original insertion position), otherwise appends. -/
def setProp : List (String × JValue) → String → JValue → List (String × JValue)
  | [], k, v => [(k, v)]
  | (k', v') :: rest, k, v =>
    if k' = k then (k, v) :: rest else (k', v') :: setProp rest k v

/-- Numeric value of a non-empty list of decimal digits. -/
def natFromDigits : List Char → Nat → Nat
  | [], acc => acc
  | c :: rest, acc => natFromDigits rest (acc * 10 + (c.toNat - '0'.toNat))

/-- A canonical array-index property key: decimal digits, no leading zero
(except `"0"` itself). -/
def decodeIndex (k : String) : Option Nat :=
  match k.data with
  | [] => none
  | c :: rest =>
    if (c :: rest).all (·.isDigit) && (rest.isEmpty || c ≠ '0') then
      some (natFromDigits (c :: rest) 0)
    else none

/-- Index lookup on an array value, as property access. -/
def arrGet (xs : List JValue) (k : String) : JValue :=
  match decodeIndex k with
  | some i => xs.getD i .undef
  | none => (.undef)

/-- Index lookup on a string value, as property access. -/
def strGet (s : String) (k : String) : JValue :=
  match decodeIndex k with
  | some i =>
    match s.data.get? i with
    | some c => .str (String.mk [c])
    | none => .undef
  | none => (.undef)

/-- Property access `receiver[k]`.  Throws a `TypeError` when the receiver
is `null` or `undefined`; yields `undefined` on other primitives. -/
def jsGet : JValue → String → JsM JValue
  | .null, _ => .error ()
  | .undef, _ => .error ()
  | .obj fs, k => .ok (getField fs k)
  | .arr xs, k => .ok (arrGet xs k)
  | .str s, k => .ok (strGet s k)
  | .bool _, _ => .ok .undef
  | .num _, _ => .ok (.undef)

/-- `Object.keys` (own enumerable keys; `[]` for primitives). -/
def jsKeys : JValue → List String
  | .obj fs => fs.map Prod.fst
  | .arr xs => (List.range xs.length).map (fun i => toString i)
  | .str s => (List.range s.data.length).map (fun i => toString i)
  | _ => []

/-- Object-spread `{ ...base, ...v }`: folds `v`'s own enumerable
key/value pairs into `base` with assignment semantics.  Spreading
`null`/`undefined`/numbers/booleans contributes nothing; spreading a string
or an array contributes its index properties. -/
def spreadInto (base : List (String × JValue)) : JValue → List (String × JValue)
  | .obj fs => fs.foldl (fun b kv => setProp b kv.1 kv.2) base
  | .arr xs => (xs.enum).foldl (fun b p => setProp b (toString p.1) p.2) base
  | .str s => (s.data.enum).foldl
      (fun b p => setProp b (toString p.1) (.str (String.mk [p.2]))) base
  | _ => base

/-- `String.prototype.split` with a single-character separator, on the
character list.  `split` of the empty string is `[""]`. -/
def splitChars (sep : Char) : List Char → List (List Char)
  | [] => [[]]
  | c :: rest =>
    match splitChars sep rest with
    | [] => [[]]
    | g :: gs => if c = sep then [] :: g :: gs else (c :: g) :: gs

def jsSplit (s : String) (sep : Char) : List String :=
  (splitChars sep s.data).map String.mk

def isSpaceChar (c : Char) : Bool :=
  c = ' ' || c = '\t' || c = '\n' || c = '\r'

/-- `String.prototype.trim`. -/
def jsTrim (s : String) : String :=
  String.mk (((s.data.dropWhile isSpaceChar).reverse.dropWhile isSpaceChar).reverse)

/-- ASCII lower-casing of one character, as `toLowerCase` acts on it. -/
def lowerChar (c : Char) : Char :=
  if 'A' ≤ c && c ≤ 'Z' then Char.ofNat (c.toNat + 32) else c

/-- `String.prototype.toLowerCase` (ASCII model). -/
def jsToLower (s : String) : String :=
  String.mk (s.data.map lowerChar)

/-- Needle is a prefix of haystack (character lists). -/
def prefixMatch : List Char → List Char → Bool
  | [], _ => true
  | _ :: _, [] => false
  | a :: as, b :: bs => a = b && prefixMatch as bs

def subMatch (needle : List Char) : List Char → Bool
  | [] => prefixMatch needle []
  | h :: t => prefixMatch needle (h :: t) || subMatch needle t

/-- `hay.includes(needle)`. -/
def strIncludes (hay needle : String) : Bool :=
  subMatch needle.data hay.data

mutual
/-- `String(v)`: JavaScript stringification.  Arrays stringify as their
elements joined by `","` with `null`/`undefined` elements contributing
the empty string; objects stringify as `"[object Object]"`. -/
def jsToString : JValue → String
  | .undef => "undefined"
  | .null => "null"
  | .bool true => "true"
  | .bool false => "false"
  | .num n => toString n
  | .str s => s
  | .obj _ => "[object Object]"
  | .arr xs => jsToStringItems xs
def jsToStringItems : List JValue → String
  | [] => ""
  | [.undef] => ""
  | [.null] => ""
  | [v] => jsToString v
  | .undef :: rest => "," ++ jsToStringItems rest
  | .null :: rest => "," ++ jsToStringItems rest
  | v :: rest => jsToString v ++ "," ++ jsToStringItems rest
end

mutual
/-- `flatten` from the source: flattens a nested array
(`arr.reduce((flat, x) => flat.concat(Array.isArray(x) ? flatten(x) : x), [])`,
written as the equivalent element-wise recursion). -/
def flatten : List JValue → List JValue
  | [] => []
  | v :: rest => flattenOne v ++ flatten rest
/-- One `concat` step of `flatten`: `Array.isArray(x) ? flatten(x) : x`. -/
def flattenOne : JValue → List JValue
  | .arr ys => flatten ys
  | v => [v]
end

/-- `extractSuggestion` from the source: arrays are flattened, other
objects yield `null`, non-objects pass through. -/
def extractSuggestion : JValue → JValue
  | .arr xs => .arr (flatten xs)
  | .obj _ => .null
  | .null => .null
  | v => v

/-- A suggestion option `{label, value, source}` as built by
`populateSuggestionsList` (label and value are the same resolved value). -/
structure Suggestion where
  label : JValue
  value : JValue
  source : JValue
  deriving Repr

/-- The two accumulators closed over by `getSuggestions`:
`suggestionsList` and `labelsList`. -/
structure SuggState where
  suggestionsList : List Suggestion
  labelsList : List JValue
  deriving Repr

/-- `labelsList.includes(val)`.  `Array.prototype.includes` compares with
SameValueZero: structurally on primitive values (where it coincides with
`===`), and by reference identity on arrays and objects.  Every array
candidate offered to `populateSuggestionsList` is a fresh array built by
`flatten` inside `extractSuggestion`, never reference-equal to any stored
label, so `includes` is always `false` for array values — modelled
directly by the `.arr` case.  Object candidates (elements of a terminal
array) are compared structurally here, which agrees with reference
identity when the same node is re-offered and over-approximates it for
structurally equal distinct nodes; no theorem below asserts anything
about object labels. -/
def containsVal (l : List JValue) (v : JValue) : Bool :=
  match v with
  | .arr _ => false
  | _ => l.any (fun x => jbeq x v)

/-- JavaScript primitive values — everything that is not an object
(arrays are objects): exactly the values that `===` and SameValueZero
compare by value rather than by reference. -/
def primitiveValue : JValue → Bool
  | .arr _ => false
  | .obj _ => false
  | _ => true

/-- Appending an accepted option and recording its label as used. -/
def pushSugg (st : SuggState) (val source : JValue) : SuggState :=
  ⟨st.suggestionsList ++ [⟨val, val, source⟩], st.labelsList ++ [val]⟩

/-- The word-match test of `populateSuggestionsList`:
`skipWordMatch || currentValue.trim().split(' ').some(term =>
String(val).toLowerCase().includes(term))`.  Note that the candidate value
is lower-cased but the terms are not. -/
def isWordMatch (skip : Bool) (currentValue : String) (val : JValue) : Bool :=
  skip || (jsSplit (jsTrim currentValue) ' ').any
    (fun term => strIncludes (jsToLower (jsToString val)) term)

/-- `populateSuggestionsList` from the source.  Acceptance is
`(isWordMatch && !labelsList.includes(val)) || source._promoted`
(short-circuit: `source._promoted` is read only when the first disjunct is
false); the returned boolean is `showDistinctSuggestions` on acceptance and
`false` otherwise. -/
def populateSuggestionsList (currentValue : String)
    (skipWordMatch showDistinctSuggestions : Bool)
    (val _parsedSource source : JValue) (st : SuggState) : JsM (SuggState × Bool) :=
  if isWordMatch skipWordMatch currentValue val && !(containsVal st.labelsList val) then
    .ok (pushSugg st val source, showDistinctSuggestions)
  else
    match jsGet source "_promoted" with
    | .error e => .error e
    | .ok p =>
      if truthy p then .ok (pushSugg st val source, showDistinctSuggestions)
      else .ok (st, false)

/-- `val.some(suggestion => populateSuggestionsList(...))` — stops at the
first accepted element (distinct mode's multi-value terminal). -/
def someAccept (cv : String) (skip distinct : Bool) (vs : List JValue)
    (ps source : JValue) (st : SuggState) : JsM (SuggState × Bool) :=
  match vs with
  | [] => .ok (st, false)
  | v :: rest =>
    match populateSuggestionsList cv skip distinct v ps source st with
    | .error e => .error e
    | .ok (st', b) =>
      if b then .ok (st', true) else someAccept cv skip distinct rest ps source st'

/-- `val.forEach(suggestion => populateSuggestionsList(...))`. -/
def forEachAccept (cv : String) (skip distinct : Bool) (vs : List JValue)
    (ps source : JValue) (st : SuggState) : JsM SuggState :=
  match vs with
  | [] => .ok st
  | v :: rest =>
    match populateSuggestionsList cv skip distinct v ps source st with
    | .error e => .error e
    | .ok (st', _) => forEachAccept cv skip distinct rest ps source st'

/-- Own-property access used by `parseField` once the receiver is known to
be a non-null object value. -/
def ownGet : JValue → String → JValue
  | .obj fs, k => getField fs k
  | .arr xs, k => arrGet xs k
  | .str s, k => strGet s k
  | _, _ => .undef

theorem sizeOf_list_pos (l : List α) [SizeOf α] : 1 ≤ sizeOf l := by
  cases l
  · simp
  · simp
    omega

theorem sizeOf_getField_le (fs : List (String × JValue)) (k : String) :
    sizeOf (getField fs k) ≤ sizeOf fs := by
  unfold getField
  cases h : fs.find? (fun kv => kv.1 = k) with
  | none => simpa using sizeOf_list_pos fs
  | some kv =>
    have hmem := List.mem_of_find?_eq_some h
    have := List.sizeOf_lt_of_mem hmem
    cases kv with
    | mk a b => simp at this ⊢; omega

theorem sizeOf_arrGet_le (xs : List JValue) (k : String) :
    sizeOf (arrGet xs k) ≤ sizeOf xs := by
  unfold arrGet
  cases decodeIndex k with
  | none => simpa using sizeOf_list_pos xs
  | some i =>
    simp only [List.getD]
    cases h : xs.get? i with
    | none => simpa using sizeOf_list_pos xs
    | some x =>
      have hmem := List.get?_mem h
      have := List.sizeOf_lt_of_mem hmem
      simp
      omega

theorem sizeOf_ownGet_lt (v : JValue) (k : String)
    (h1 : typeofObject v = true) (h2 : ¬v = .null) :
    sizeOf (ownGet v k) < sizeOf v := by
  cases v with
  | null => exact absurd rfl h2
  | obj fs =>
    have := sizeOf_getField_le fs k
    simp [ownGet]
    omega
  | arr xs =>
    have := sizeOf_arrGet_le xs k
    simp [ownGet]
    omega
  | undef | bool b | num n | str s => simp [typeofObject] at h1


/-- Decidable test for the `null` value. -/
def isNullB : JValue → Bool
  | .null => true
  | _ => false

theorem ne_null_of_isNullB_false {v : JValue} (h : isNullB v = false) : ¬v = .null := by
  cases v <;> simp_all [isNullB]

mutual
/-- `parseField` from the source.  The receiver must be of `object` type
(`typeof parsedSource === 'object'`, which includes `null` — property
access on `null` throws); looks up the first path segment, recurses on the
remaining dotted path (element-wise through arrays), and offers terminal
values to `populateSuggestionsList` via `extractSuggestion`. -/
def parseField (cv : String) (skip distinct : Bool) (parsedSource : JValue)
    (field : String) (source : JValue) (st : SuggState) : JsM (SuggState × Bool) :=
  if _h1 : typeofObject parsedSource then
    if _h2 : isNullB parsedSource then .error ()
    else
      parseFieldFound cv skip distinct parsedSource
        (ownGet parsedSource ((jsSplit field '.').headD "")) field source st
  else .ok (st, false)
termination_by 2 * sizeOf parsedSource
decreasing_by
  have := sizeOf_ownGet_lt parsedSource ((jsSplit field '.').headD "") _h1
    (ne_null_of_isNullB_false (by simpa using _h2))
  omega

/-- Continuation of `parseField` after the first path segment has been
looked up (`label`). -/
def parseFieldFound (cv : String) (skip distinct : Bool) (parsedSource label : JValue)
    (field : String) (source : JValue) (st : SuggState) : JsM (SuggState × Bool) :=
  let fieldNodes := jsSplit field '.'
  if truthy label then
    if fieldNodes.length > 1 then
      -- nested fields of the 'foo.bar.zoo' variety:
      -- children = field.substring(fieldNodes[0].length + 1)
      let children := String.mk (field.data.drop ((fieldNodes.headD "").data.length + 1))
      match _hl : label with
      | .arr items =>
        match parseFieldItems cv skip distinct items children source st with
        | .error e => .error e
        | .ok st' => .ok (st', false)
      | _ =>
        match parseField cv skip distinct label children source st with
        | .error e => .error e
        | .ok (st', _) => .ok (st', false)
    else
      let val := extractSuggestion label
      if truthy val then
        match val with
        | .arr vs =>
          if distinct then someAccept cv skip distinct vs parsedSource source st
          else
            match forEachAccept cv skip distinct vs parsedSource source st with
            | .error e => .error e
            | .ok st' =>
              -- after the forEach, control falls through to
              -- `return populateSuggestionsList(val, parsedSource, source)`
              -- with val still the whole (flattened) array
              populateSuggestionsList cv skip distinct val parsedSource source st'
        | _ => populateSuggestionsList cv skip distinct val parsedSource source st
      else .ok (st, false)
  else .ok (st, false)
termination_by 2 * sizeOf label + 1
decreasing_by
  all_goals first
    | omega
    | (simp_all
       try omega)

/-- `label.forEach(arrayItem => parseField(arrayItem, children, source))` —
the element-wise traversal of an array met at a non-terminal segment
(returned booleans are discarded). -/
def parseFieldItems (cv : String) (skip distinct : Bool) (items : List JValue)
    (children : String) (source : JValue) (st : SuggState) : JsM SuggState :=
  match items with
  | [] => .ok st
  | x :: rest =>
    match parseField cv skip distinct x children source st with
    | .error e => .error e
    | .ok (st', _) => parseFieldItems cv skip distinct rest children source st'
termination_by 2 * sizeOf items
decreasing_by
  all_goals first
    | omega
    | (simp_all
       try omega)
end

/-- `fields.some(field => parseField(item, field))` — distinct mode tries
the fields in order and stops at the first field whose `parseField`
returns true. -/
def fieldsSome (cv : String) (skip distinct : Bool) (item : JValue)
    (fields : List String) (st : SuggState) : JsM SuggState :=
  match fields with
  | [] => .ok st
  | f :: rest =>
    match parseField cv skip distinct item f item st with
    | .error e => .error e
    | .ok (st', b) => if b then .ok st' else fieldsSome cv skip distinct item rest st'

/-- `fields.forEach(field => parseField(item, field))` — non-distinct mode
resolves every field. -/
def fieldsForEach (cv : String) (skip distinct : Bool) (item : JValue)
    (fields : List String) (st : SuggState) : JsM SuggState :=
  match fields with
  | [] => .ok st
  | f :: rest =>
    match parseField cv skip distinct item f item st with
    | .error e => .error e
    | .ok (st', _) => fieldsForEach cv skip distinct item rest st'

/-- `traverseSuggestions` from the source: iterates the raw suggestion
documents; `source` defaults to the document itself
(`parseField(item, field)` ⇒ `source = item`). -/
def traverseSuggestions (cv : String) (skip distinct : Bool) (fields : List String)
    (suggestions : List JValue) (st : SuggState) : JsM SuggState :=
  match suggestions with
  | [] => .ok st
  | item :: rest =>
    match (if distinct then fieldsSome cv skip distinct item fields st
           else fieldsForEach cv skip distinct item fields st) with
    | .error e => .error e
    | .ok st' => traverseSuggestions cv skip distinct fields rest st'

/-- `getSuggestions` from the source.  One traversal with
`skipWordMatch = false`; when it produced strictly fewer suggestions than
there are input documents, a second traversal runs with
`skipWordMatch = true` **on the same accumulators** (the source never
resets `suggestionsList`/`labelsList` between the passes).  The
`!skipWordMatch` conjunct of the source's condition is always true at that
point, since `skipWordMatch` is only set inside the conditional. -/
def getSuggestions (fields : List String) (suggestions : List JValue)
    (currentValue : String := "") (showDistinctSuggestions : Bool := true) :
    JsM (List Suggestion) :=
  match traverseSuggestions currentValue false showDistinctSuggestions
      fields suggestions ⟨[], []⟩ with
  | .error e => .error e
  | .ok st1 =>
    if st1.suggestionsList.length < suggestions.length then
      match traverseSuggestions currentValue true showDistinctSuggestions
          fields suggestions st1 with
      | .error e => .error e
      | .ok st2 => .ok st2.suggestionsList
    else .ok st1.suggestionsList

/-- `Except`-valued `Array.prototype.map`. -/
def mapJsM (f : α → JsM β) : List α → JsM (List β)
  | [] => .ok []
  | x :: rest =>
    match f x with
    | .error e => .error e
    | .ok y =>
      match mapJsM f rest with
      | .error e => .error e
      | .ok ys => .ok (y :: ys)

/-- The loop body of `highlightResults`: for every key of the highlight
map, `data._source = { ...data._source, [item]: data.highlight[item][0] }`
(only the first highlight fragment is used). -/
def hlFold (hl : JValue) (keys : List String)
    (d : List (String × JValue)) : JsM (List (String × JValue)) :=
  match keys with
  | [] => .ok d
  | item :: rest =>
    match jsGet hl item with
    | .error e => .error e
    | .ok frags =>
      match jsGet frags "0" with
      | .error e => .error e
      | .ok hv =>
        hlFold hl rest
          (setProp d "_source" (.obj (setProp (spreadInto [] (getField d "_source")) item hv)))

/-- `highlightResults` from the source: copies the hit
(`const data = {...result}`) and, when it carries a truthy `highlight`
map, overwrites each highlighted field of `data._source` with the first
highlight fragment. -/
def highlightResults (result : JValue) : JsM (List (String × JValue)) :=
  let data := spreadInto [] result
  let hl := getField data "highlight"
  if truthy hl then hlFold hl (jsKeys hl) data else .ok data

/-- The per-hit body of `parseHits`: flatten the (highlight-merged) hit,
starting from `{...data._source}` and assigning every top-level key except
`_source` on top of it (metadata overrides source on a name collision). -/
def parseHitsOne (item : JValue) : JsM JValue :=
  match highlightResults item with
  | .error e => .error e
  | .ok data =>
    let keys := data.map Prod.fst
    .ok (.obj ((keys.filter (fun k => k ≠ "_source")).foldl
      (fun obj key => setProp obj key (getField data key))
      (spreadInto [] (getField data "_source"))))

/-- `parseHits` from the source (`hits` absent ⇒ `[]`). -/
def parseHits (hits : Option (List JValue)) : JsM (List JValue) :=
  match hits with
  | none => .ok []
  | some hs => mapJsM parseHitsOne hs

/-- The first highlight fragment `data.highlight[item][0]` for an
array-valued highlight entry (the only shape the spec's highlight map
carries; other values are modelled as `undefined` and excluded by
hypothesis wherever this is used). -/
def firstFragOf : JValue → JValue
  | .arr frags => frags.getD 0 .undef
  | _ => (.undef)

/-- `isNumber` from the source:
`!Number.isNaN(parseFloat(n)) && Number.isFinite(n)`.  `Number.isFinite`
does not coerce, so this holds exactly for (finite, non-NaN) number
values — in this model, exactly the `num` constructor. -/
def isNumber : JValue → Bool
  | .num _ => true
  | _ => false

/-- The `forEach` loop of `getNormalizedField`: string entries pass
through; other entries contribute their (truthy) `.field`, and are skipped
otherwise.  Reading `.field` throws on a `null`/`undefined` entry. -/
def collectFields : List JValue → JsM (List JValue)
  | [] => .ok []
  | df :: rest =>
    match df with
    | .str s =>
      match collectFields rest with
      | .error e => .error e
      | .ok l => .ok (.str s :: l)
    | _ =>
      match jsGet df "field" with
      | .error e => .error e
      | .ok f =>
        match collectFields rest with
        | .error e => .error e
        | .ok l => .ok (if truthy f then f :: l else l)

/-- `getNormalizedField` from the source.  `none` models the `undefined`
result (absent/falsy input, or an empty array). -/
def getNormalizedField (field : JValue) : JsM (Option (List JValue)) :=
  if truthy field then
    match field with
    | .arr entries =>
      if entries.length ≠ 0 then
        match collectFields entries with
        | .error e => .error e
        | .ok fs => .ok (some fs)
      else .ok none
    | v => .ok (some [v])
  else .ok none

/-- The `forEach` loop of `getNormalizedWeights`: each entry contributes
its `.weight` when `isNumber(weight)`, else the default `1`. -/
def collectWeights : List JValue → JsM (List JValue)
  | [] => .ok []
  | df :: rest =>
    match jsGet df "weight" with
    | .error e => .error e
    | .ok w =>
      match collectWeights rest with
      | .error e => .error e
      | .ok l => .ok ((if isNumber w then w else .num 1) :: l)

/-- `getNormalizedWeights` from the source (array input only; `none`
models the `undefined` result). -/
def getNormalizedWeights (field : JValue) : JsM (Option (List JValue)) :=
  match field with
  | .arr entries =>
    if entries.length ≠ 0 then
      match collectWeights entries with
      | .error e => .error e
      | .ok ws => .ok (some ws)
    else .ok none
  | _ => .ok none

/-- The per-bucket body of `parseCompAggToHits`:
`{_doc_count: doc_count, _key: key[aggFieldName] !== undefined ?
key[aggFieldName] : key, ...data}` where
`{doc_count, key, [aggFieldName]: data} = bucket`. -/
def bucketToHit (aggFieldName : String) (bucket : JValue) : JsM JValue :=
  match jsGet bucket "doc_count" with
  | .error e => .error e
  | .ok dc =>
    match jsGet bucket "key" with
    | .error e => .error e
    | .ok key =>
      match jsGet bucket aggFieldName with
      | .error e => .error e
      | .ok data =>
        match jsGet key aggFieldName with
        | .error e => .error e
        | .ok kf =>
          .ok (.obj (spreadInto
            (setProp (setProp [] "_doc_count" dc) "_key"
              (match kf with
               | .undef => key
               | v => v))
            data))

/-- `parseCompAggToHits` from the source (`buckets` absent ⇒ default `[]`
⇒ an empty result). -/
def parseCompAggToHits (aggFieldName : String)
    (buckets : Option (List JValue) := none) : JsM (List JValue) :=
  match buckets with
  | none => .ok []
  | some bs => mapJsM (bucketToHit aggFieldName) bs

/-! ## Basic lemmas about the embedded primitives -/

mutual
theorem jbeq_refl : ∀ v, jbeq v v = true := by
  intro v
  match v with
  | .undef | .null => rfl
  | .bool b => simp [jbeq]
  | .num n => simp [jbeq]
  | .str s => simp [jbeq]
  | .arr xs => simp [jbeq, jbeqList_refl xs]
  | .obj fs => simp [jbeq, jbeqFields_refl fs]
theorem jbeqList_refl : ∀ xs, jbeqList xs xs = true := by
  intro xs
  match xs with
  | [] => rfl
  | x :: rest => simp [jbeqList, jbeq_refl x, jbeqList_refl rest]
theorem jbeqFields_refl : ∀ fs, jbeqFields fs fs = true := by
  intro fs
  match fs with
  | [] => rfl
  | (k, v) :: rest => simp [jbeqFields, jbeq_refl v, jbeqFields_refl rest]
end

theorem strIncludes_empty (s : String) : strIncludes s "" = true := by
  unfold strIncludes
  cases s.data with
  | nil => rfl
  | cons h t => simp [subMatch, prefixMatch]

theorem isWordMatch_empty (skip : Bool) (v : JValue) :
    isWordMatch skip "" v = true := by
  unfold isWordMatch
  have h1 : jsTrim "" = "" := rfl
  have h2 : jsSplit "" ' ' = [""] := rfl
  rw [h1, h2]
  simp [strIncludes_empty]

theorem not_arr_of_primitive {v : JValue} (h : primitiveValue v = true) :
    ∀ xs, v ≠ JValue.arr xs := by
  rintro xs rfl
  simp [primitiveValue] at h

theorem containsVal_append (l : List JValue) (v w : JValue)
    (hw : ∀ xs, w ≠ JValue.arr xs) :
    containsVal (l ++ [v]) w = (containsVal l w || jbeq v w) := by
  rcases w with _ | _ | b | n | s | xs | fs
  all_goals try (exact (hw _ rfl).elim)
  all_goals simp [containsVal, List.any_append]

theorem containsVal_push_self (l : List JValue) (v : JValue)
    (hv : ∀ xs, v ≠ JValue.arr xs) :
    containsVal (l ++ [v]) v = true := by
  rw [containsVal_append l v v hv, jbeq_refl v, Bool.or_true]

/-! ## The effect of one `populateSuggestionsList` call -/

/-- A source document counted as promoted: its `_promoted` property is
readable and truthy. -/
def Promoted (src : JValue) : Prop :=
  ∃ p, jsGet src "_promoted" = .ok p ∧ truthy p = true

theorem populate_spec {cv : String} {skip d : Bool} {val ps src : JValue}
    {st st' : SuggState} {b : Bool}
    (h : populateSuggestionsList cv skip d val ps src st = .ok (st', b)) :
    (st' = st ∧ b = false) ∨
    (st' = pushSugg st val src ∧ b = d ∧
      ((isWordMatch skip cv val = true ∧ containsVal st.labelsList val = false) ∨
       Promoted src)) := by
  unfold populateSuggestionsList at h
  split at h
  case isTrue hc =>
    right
    injection h with h'
    injection h' with h1 h2
    simp_all [Promoted]
  case isFalse hc =>
    split at h
    · exact absurd h (by simp)
    case h_2 p hp =>
      split at h
      case isTrue hp2 =>
        right
        injection h with h'
        injection h' with h1 h2
        exact ⟨h1.symm, h2.symm, Or.inr ⟨p, hp, hp2⟩⟩
      case isFalse hp2 =>
        left
        injection h with h'
        injection h' with h1 h2
        exact ⟨h1.symm, h2.symm⟩

/-! ## Master lemma: every state change flows through
`populateSuggestionsList`.  Any reflexive-transitive relation preserved by
a `populateSuggestionsList` step is preserved by the whole traversal. -/

section Rel

variable {R : SuggState → SuggState → Prop}

theorem someAccept_rel
    (hrefl : ∀ st, R st st) (htrans : ∀ a b c, R a b → R b c → R a c)
    (hpop : ∀ cv skip d val ps src st st' b,
      populateSuggestionsList cv skip d val ps src st = .ok (st', b) → R st st')
    (cv : String) (skip d : Bool) :
    ∀ (vs : List JValue) (ps source : JValue) (st st' : SuggState) (b : Bool),
      someAccept cv skip d vs ps source st = .ok (st', b) → R st st' := by
  intro vs
  induction vs with
  | nil =>
    intro ps source st st' b h
    unfold someAccept at h
    injection h with h'
    injection h' with h1 h2
    exact h1 ▸ hrefl st
  | cons v rest ih =>
    intro ps source st st' b h
    unfold someAccept at h
    split at h
    · exact absurd h (by simp)
    case h_2 st1 b1 hp =>
      split at h
      · injection h with h'
        injection h' with h1 h2
        exact h1 ▸ hpop cv skip d v ps source st st1 b1 hp
      · exact htrans _ _ _ (hpop cv skip d v ps source st st1 b1 hp) (ih ps source st1 st' b h)

theorem forEachAccept_rel
    (hrefl : ∀ st, R st st) (htrans : ∀ a b c, R a b → R b c → R a c)
    (hpop : ∀ cv skip d val ps src st st' b,
      populateSuggestionsList cv skip d val ps src st = .ok (st', b) → R st st')
    (cv : String) (skip d : Bool) :
    ∀ (vs : List JValue) (ps source : JValue) (st st' : SuggState),
      forEachAccept cv skip d vs ps source st = .ok st' → R st st' := by
  intro vs
  induction vs with
  | nil =>
    intro ps source st st' h
    unfold forEachAccept at h
    injection h with h'
    exact h' ▸ hrefl st
  | cons v rest ih =>
    intro ps source st st' h
    unfold forEachAccept at h
    split at h
    · exact absurd h (by simp)
    case h_2 st1 b1 hp =>
      exact htrans _ _ _ (hpop cv skip d v ps source st st1 b1 hp) (ih ps source st1 st' h)

theorem parseField_rel
    (hrefl : ∀ st, R st st) (htrans : ∀ a b c, R a b → R b c → R a c)
    (hpop : ∀ cv skip d val ps src st st' b,
      populateSuggestionsList cv skip d val ps src st = .ok (st', b) → R st st')
    (cv : String) (skip distinct : Bool) :
    ∀ (ps : JValue) (field : String) (source : JValue) (st : SuggState),
      ∀ st' b, parseField cv skip distinct ps field source st = .ok (st', b) → R st st' := by
  intro ps field source st
  refine parseField.induct cv skip distinct
    (fun ps field source st => ∀ st' b,
      parseField cv skip distinct ps field source st = .ok (st', b) → R st st')
    (fun ps label field source st => ∀ st' b,
      parseFieldFound cv skip distinct ps label field source st = .ok (st', b) → R st st')
    (fun items children source st => ∀ st',
      parseFieldItems cv skip distinct items children source st = .ok st' → R st st')
    ?_ ?_ ?_ ?_ ?_ ?_ ?_ ?_ ?_ ?_ ?_ ?_ ?_ ?_ ?_ ?_ ps field source st
  · -- typeof object, null receiver: throws
    intro ps field source st h1 h2 st' b h
    unfold parseField at h
    rw [dif_pos h1, dif_pos h2] at h
    exact absurd h (by simp)
  · -- typeof object, non-null: delegate to parseFieldFound
    intro ps field source st h1 h2 ih st' b h
    unfold parseField at h
    rw [dif_pos h1, dif_neg h2] at h
    exact ih st' b h
  · -- not an object: silent false
    intro ps field source st h1 st' b h
    unfold parseField at h
    rw [dif_neg h1] at h
    injection h with h'
    injection h' with ha hb
    exact ha ▸ hrefl st
  · -- nested, array label, items traversal threw
    intro ps field source st fn hlen ch items e heq htr ih st' b h
    have hlen' : (jsSplit field '.').length > 1 := hlen
    unfold parseFieldFound at h
    simp only [] at h
    rw [if_pos htr, if_pos hlen'] at h
    split at h
    · exact absurd h (by simp)
    · rename_i st1 hinner
      injection h with h'
      injection h' with ha hb
      exact ha ▸ ih st1 hinner
  · -- nested, array label, items traversal ok
    intro ps field source st fn hlen ch items st1 heq htr ih st' b h
    have hlen' : (jsSplit field '.').length > 1 := hlen
    unfold parseFieldFound at h
    simp only [] at h
    rw [if_pos htr, if_pos hlen'] at h
    split at h
    · exact absurd h (by simp)
    · rename_i st2 hinner
      injection h with h'
      injection h' with ha hb
      exact ha ▸ ih st2 hinner
  · -- nested, non-array label, recursion threw
    intro ps label field source st fn htr hlen ch e heq hnotarr ih st' b h
    have hlen' : (jsSplit field '.').length > 1 := hlen
    rcases label with _ | _ | b2 | n | s | xs | fs
    all_goals try (exact (hnotarr _ rfl).elim)
    all_goals
      unfold parseFieldFound at h
      simp only [] at h
      rw [if_pos htr, if_pos hlen'] at h
      split at h
      · exact absurd h (by simp)
      · rename_i st1 b1 hinner
        injection h with h'
        injection h' with ha hb
        exact ha ▸ ih st1 b1 hinner
  · -- nested, non-array label, recursion ok
    intro ps label field source st fn htr hlen ch st1 b1 heq hnotarr ih st' b h
    have hlen' : (jsSplit field '.').length > 1 := hlen
    rcases label with _ | _ | b2 | n | s | xs | fs
    all_goals try (exact (hnotarr _ rfl).elim)
    all_goals
      unfold parseFieldFound at h
      simp only [] at h
      rw [if_pos htr, if_pos hlen'] at h
      split at h
      · exact absurd h (by simp)
      · rename_i st2 b2 hinner
        injection h with h'
        injection h' with ha hb
        exact ha ▸ ih st2 b2 hinner
  · -- terminal array value, distinct: someAccept
    intro ps label field source st fn htr hlen val hval vs hvs hd st' b h
    have hlen' : ¬((jsSplit field '.').length > 1) := hlen
    have hval' : truthy (extractSuggestion label) = true := hval
    have hvs' : extractSuggestion label = JValue.arr vs := hvs
    unfold parseFieldFound at h
    simp only [] at h
    rw [if_pos htr, if_neg hlen', if_pos hval', hvs'] at h
    simp only [] at h
    rw [if_pos hd] at h
    exact someAccept_rel hrefl htrans hpop cv skip distinct vs ps source st st' b h
  · -- terminal array value, non-distinct, forEach threw
    intro ps label field source st fn htr hlen val hval vs hvs hd e heq st' b h
    have hlen' : ¬((jsSplit field '.').length > 1) := hlen
    have hval' : truthy (extractSuggestion label) = true := hval
    have hvs' : extractSuggestion label = JValue.arr vs := hvs
    have hd' : ¬(distinct = true) := hd
    unfold parseFieldFound at h
    simp only [] at h
    rw [if_pos htr, if_neg hlen', if_pos hval', hvs'] at h
    simp only [] at h
    rw [if_neg hd'] at h
    split at h
    · exact absurd h (by simp)
    · rename_i st1 hinner
      exact htrans _ _ _
        (forEachAccept_rel hrefl htrans hpop cv skip distinct vs ps source st st1 hinner)
        (hpop _ _ _ _ _ _ _ _ _ h)
  · -- terminal array value, non-distinct, forEach ok then populate on the array
    intro ps label field source st fn htr hlen val hval vs hvs hd st1 heq st' b h
    have hlen' : ¬((jsSplit field '.').length > 1) := hlen
    have hval' : truthy (extractSuggestion label) = true := hval
    have hvs' : extractSuggestion label = JValue.arr vs := hvs
    have hd' : ¬(distinct = true) := hd
    unfold parseFieldFound at h
    simp only [] at h
    rw [if_pos htr, if_neg hlen', if_pos hval', hvs'] at h
    simp only [] at h
    rw [if_neg hd'] at h
    split at h
    · exact absurd h (by simp)
    · rename_i st2 hinner
      exact htrans _ _ _
        (forEachAccept_rel hrefl htrans hpop cv skip distinct vs ps source st st2 hinner)
        (hpop _ _ _ _ _ _ _ _ _ h)
  · -- terminal non-array value: populate
    intro ps label field source st fn htr hlen val hval hnotarr st' b h
    have hlen' : ¬((jsSplit field '.').length > 1) := hlen
    have hval' : truthy (extractSuggestion label) = true := hval
    rcases hv : extractSuggestion label with _ | _ | b2 | n | s | xs | fs
    all_goals try (exact (hnotarr _ hv).elim)
    all_goals
      unfold parseFieldFound at h
      simp only [] at h
      rw [if_pos htr, if_neg hlen', if_pos hval', hv] at h
      try simp only [] at h
      exact hpop _ _ _ _ _ _ _ _ _ h
  · -- terminal falsy value
    intro ps label field source st fn htr hlen val hval st' b h
    have hlen' : ¬((jsSplit field '.').length > 1) := hlen
    have hval' : ¬(truthy (extractSuggestion label) = true) := hval
    unfold parseFieldFound at h
    simp only [] at h
    rw [if_pos htr, if_neg hlen', if_neg hval'] at h
    injection h with h'
    injection h' with ha hb
    exact ha ▸ hrefl st
  · -- falsy label
    intro ps label field source st htr st' b h
    unfold parseFieldFound at h
    simp only [] at h
    rw [if_neg htr] at h
    injection h with h'
    injection h' with ha hb
    exact ha ▸ hrefl st
  · -- items: nil
    intro children source st st' h
    unfold parseFieldItems at h
    try simp only [] at h
    injection h with h'
    exact h' ▸ hrefl st
  · -- items: cons, head threw
    intro children source st v rest e heq ih st' h
    unfold parseFieldItems at h
    try simp only [] at h
    split at h
    · exact absurd h (by simp)
    · rename_i st1 b1 hinner
      rw [heq] at hinner
      exact absurd hinner (by simp)
  · -- items: cons, head ok
    intro children source st v rest st1 b1 heq ih1 ih3 st' h
    unfold parseFieldItems at h
    rw [heq] at h
    try simp only [] at h
    exact htrans _ _ _ (ih1 st1 b1 heq) (ih3 st' h)

end Rel

section RelDown

variable {R : SuggState → SuggState → Prop}

theorem fieldsSome_rel
    (hrefl : ∀ st, R st st) (htrans : ∀ a b c, R a b → R b c → R a c)
    (hpop : ∀ cv skip d val ps src st st' b,
      populateSuggestionsList cv skip d val ps src st = .ok (st', b) → R st st')
    (cv : String) (skip distinct : Bool) (item : JValue) :
    ∀ (fields : List String) (st st' : SuggState),
      fieldsSome cv skip distinct item fields st = .ok st' → R st st' := by
  intro fields
  induction fields with
  | nil =>
    intro st st' h
    unfold fieldsSome at h
    injection h with h'
    exact h' ▸ hrefl st
  | cons f rest ih =>
    intro st st' h
    unfold fieldsSome at h
    split at h
    · exact absurd h (by simp)
    case h_2 st1 b1 hp =>
      have h1 : R st st1 :=
        parseField_rel hrefl htrans hpop cv skip distinct item f item st st1 b1 hp
      split at h
      · injection h with h'
        exact h' ▸ h1
      · exact htrans _ _ _ h1 (ih st1 st' h)

theorem fieldsForEach_rel
    (hrefl : ∀ st, R st st) (htrans : ∀ a b c, R a b → R b c → R a c)
    (hpop : ∀ cv skip d val ps src st st' b,
      populateSuggestionsList cv skip d val ps src st = .ok (st', b) → R st st')
    (cv : String) (skip distinct : Bool) (item : JValue) :
    ∀ (fields : List String) (st st' : SuggState),
      fieldsForEach cv skip distinct item fields st = .ok st' → R st st' := by
  intro fields
  induction fields with
  | nil =>
    intro st st' h
    unfold fieldsForEach at h
    injection h with h'
    exact h' ▸ hrefl st
  | cons f rest ih =>
    intro st st' h
    unfold fieldsForEach at h
    split at h
    · exact absurd h (by simp)
    case h_2 st1 b1 hp =>
      exact htrans _ _ _
        (parseField_rel hrefl htrans hpop cv skip distinct item f item st st1 b1 hp)
        (ih st1 st' h)

theorem traverseSuggestions_rel
    (hrefl : ∀ st, R st st) (htrans : ∀ a b c, R a b → R b c → R a c)
    (hpop : ∀ cv skip d val ps src st st' b,
      populateSuggestionsList cv skip d val ps src st = .ok (st', b) → R st st')
    (cv : String) (skip distinct : Bool) (fields : List String) :
    ∀ (suggestions : List JValue) (st st' : SuggState),
      traverseSuggestions cv skip distinct fields suggestions st = .ok st' → R st st' := by
  intro suggestions
  induction suggestions with
  | nil =>
    intro st st' h
    unfold traverseSuggestions at h
    injection h with h'
    exact h' ▸ hrefl st
  | cons item rest ih =>
    intro st st' h
    unfold traverseSuggestions at h
    split at h
    · exact absurd h (by simp)
    case h_2 st1 hp =>
      have h1 : R st st1 := by
        by_cases hd : distinct = true
        · rw [if_pos hd] at hp
          exact fieldsSome_rel hrefl htrans hpop cv skip distinct item fields st st1 hp
        · rw [if_neg hd] at hp
          exact fieldsForEach_rel hrefl htrans hpop cv skip distinct item fields st st1 hp
      exact htrans _ _ _ h1 (ih st1 st' h)

end RelDown

/-! ## Small-step evaluation lemmas (used to evaluate concrete runs) -/

theorem fieldsSome_nil (cv : String) (skip d : Bool) (item : JValue) (st : SuggState) :
    fieldsSome cv skip d item [] st = .ok st := by
  unfold fieldsSome
  rfl

theorem fieldsSome_step_true {cv : String} {skip d : Bool} {item : JValue}
    {f : String} {rest : List String} {st st1 : SuggState}
    (h : parseField cv skip d item f item st = .ok (st1, true)) :
    fieldsSome cv skip d item (f :: rest) st = .ok st1 := by
  conv_lhs => rw [fieldsSome.eq_def]
  simp only []
  rw [h]
  try rfl

theorem fieldsSome_step_false {cv : String} {skip d : Bool} {item : JValue}
    {f : String} {rest : List String} {st st1 : SuggState}
    (h : parseField cv skip d item f item st = .ok (st1, false)) :
    fieldsSome cv skip d item (f :: rest) st = fieldsSome cv skip d item rest st1 := by
  conv_lhs => rw [fieldsSome.eq_def]
  simp only []
  rw [h]
  try rfl

theorem fieldsSome_step_error {cv : String} {skip d : Bool} {item : JValue}
    {f : String} {rest : List String} {st : SuggState} {e : Unit}
    (h : parseField cv skip d item f item st = .error e) :
    fieldsSome cv skip d item (f :: rest) st = .error e := by
  conv_lhs => rw [fieldsSome.eq_def]
  simp only []
  rw [h]
  try rfl

theorem traverse_nil (cv : String) (skip d : Bool) (fields : List String) (st : SuggState) :
    traverseSuggestions cv skip d fields [] st = .ok st := by
  unfold traverseSuggestions
  rfl

theorem traverse_step_distinct {cv : String} {skip : Bool} {fields : List String}
    {item : JValue} {rest : List JValue} {st st1 : SuggState}
    (h : fieldsSome cv skip true item fields st = .ok st1) :
    traverseSuggestions cv skip true fields (item :: rest) st =
      traverseSuggestions cv skip true fields rest st1 := by
  conv_lhs => rw [traverseSuggestions.eq_def]
  simp only []
  rw [if_true, h]
  try rfl

theorem traverse_step_distinct_error {cv : String} {skip : Bool} {fields : List String}
    {item : JValue} {rest : List JValue} {st : SuggState} {e : Unit}
    (h : fieldsSome cv skip true item fields st = .error e) :
    traverseSuggestions cv skip true fields (item :: rest) st = .error e := by
  conv_lhs => rw [traverseSuggestions.eq_def]
  simp only []
  rw [if_true, h]
  try rfl

theorem fieldsForEach_nil (cv : String) (skip d : Bool) (item : JValue) (st : SuggState) :
    fieldsForEach cv skip d item [] st = .ok st := by
  unfold fieldsForEach
  rfl

theorem fieldsForEach_step {cv : String} {skip d : Bool} {item : JValue}
    {f : String} {rest : List String} {st st1 : SuggState} {b : Bool}
    (h : parseField cv skip d item f item st = .ok (st1, b)) :
    fieldsForEach cv skip d item (f :: rest) st = fieldsForEach cv skip d item rest st1 := by
  conv_lhs => rw [fieldsForEach.eq_def]
  simp only []
  rw [h]
  try rfl

theorem traverse_step_all {cv : String} {skip : Bool} {fields : List String}
    {item : JValue} {rest : List JValue} {st st1 : SuggState}
    (h : fieldsForEach cv skip false item fields st = .ok st1) :
    traverseSuggestions cv skip false fields (item :: rest) st =
      traverseSuggestions cv skip false fields rest st1 := by
  conv_lhs => rw [traverseSuggestions.eq_def]
  simp only []
  rw [if_neg (show ¬(false = true) by simp), h]
  try rfl

theorem getSuggestions_eq_one_pass {fields : List String} {docs : List JValue}
    {cv : String} {d : Bool} {st1 : SuggState}
    (h1 : traverseSuggestions cv false d fields docs ⟨[], []⟩ = .ok st1)
    (hge : ¬(st1.suggestionsList.length < docs.length)) :
    getSuggestions fields docs cv d = .ok st1.suggestionsList := by
  unfold getSuggestions
  rw [h1]
  simp only []
  rw [if_neg hge]

theorem getSuggestions_eq_two_pass {fields : List String} {docs : List JValue}
    {cv : String} {d : Bool} {st1 st2 : SuggState}
    (h1 : traverseSuggestions cv false d fields docs ⟨[], []⟩ = .ok st1)
    (hlt : st1.suggestionsList.length < docs.length)
    (h2 : traverseSuggestions cv true d fields docs st1 = .ok st2) :
    getSuggestions fields docs cv d = .ok st2.suggestionsList := by
  unfold getSuggestions
  rw [h1]
  simp only []
  rw [if_pos hlt, h2]

theorem getSuggestions_error {fields : List String} {docs : List JValue}
    {cv : String} {d : Bool} {e : Unit}
    (h1 : traverseSuggestions cv false d fields docs ⟨[], []⟩ = .error e) :
    getSuggestions fields docs cv d = .error e := by
  unfold getSuggestions
  rw [h1]

/-! ## Monotonicity: a traversal only appends to the accumulators -/

theorem traverseSuggestions_appends
    (cv : String) (skip distinct : Bool) (fields : List String)
    (suggestions : List JValue) (st st' : SuggState)
    (h : traverseSuggestions cv skip distinct fields suggestions st = .ok st') :
    ∃ s l, st'.suggestionsList = st.suggestionsList ++ s ∧
      st'.labelsList = st.labelsList ++ l := by
  refine @traverseSuggestions_rel
    (fun a b => ∃ s l, b.suggestionsList = a.suggestionsList ++ s ∧
      b.labelsList = a.labelsList ++ l)
    ?_ ?_ ?_ cv skip distinct fields suggestions st st' h
  · exact fun st => ⟨[], [], by simp, by simp⟩
  · rintro a b c ⟨s1, l1, hb1, hb2⟩ ⟨s2, l2, hc1, hc2⟩
    exact ⟨s1 ++ s2, l1 ++ l2, by simp [hc1, hb1], by simp [hc2, hb2]⟩
  · intro cv skip d val ps src st st' b h
    rcases populate_spec h with ⟨rfl, _⟩ | ⟨rfl, _, _⟩
    · exact ⟨[], [], by simp, by simp⟩
    · exact ⟨[⟨val, val, src⟩], [val], rfl, rfl⟩

/-- C1: the claim's amended form.  When the first pass under-produces, the
second pass runs **from the first pass's accumulated state**, and the
returned list extends the first pass's list (it is not re-derived from
scratch). -/
theorem c1_second_pass_extends_first
    (fields : List String) (docs : List JValue) (cv : String) (d : Bool)
    (st1 st2 : SuggState)
    (h1 : traverseSuggestions cv false d fields docs ⟨[], []⟩ = .ok st1)
    (h2 : st1.suggestionsList.length < docs.length)
    (h3 : traverseSuggestions cv true d fields docs st1 = .ok st2) :
    getSuggestions fields docs cv d = .ok st2.suggestionsList ∧
    ∃ rest, st2.suggestionsList = st1.suggestionsList ++ rest := by
  constructor
  · exact getSuggestions_eq_two_pass h1 h2 h3
  · obtain ⟨s, l, hs, _⟩ := traverseSuggestions_appends cv true d fields docs st1 st2 h3
    exact ⟨s, hs⟩

theorem c1_run_facts :
    (traverseSuggestions "x" false true ["a", "b"]
        [.obj [("a", .str "x"), ("b", .str "y")], .obj []] ⟨[], []⟩ =
      .ok ⟨[⟨.str "x", .str "x", .obj [("a", .str "x"), ("b", .str "y")]⟩], [.str "x"]⟩) ∧
    (traverseSuggestions "x" true true ["a", "b"]
        [.obj [("a", .str "x"), ("b", .str "y")], .obj []]
        ⟨[⟨.str "x", .str "x", .obj [("a", .str "x"), ("b", .str "y")]⟩], [.str "x"]⟩ =
      .ok ⟨[⟨.str "x", .str "x", .obj [("a", .str "x"), ("b", .str "y")]⟩,
            ⟨.str "y", .str "y", .obj [("a", .str "x"), ("b", .str "y")]⟩],
           [.str "x", .str "y"]⟩) ∧
    (traverseSuggestions "x" true true ["a", "b"]
        [.obj [("a", .str "x"), ("b", .str "y")], .obj []] ⟨[], []⟩ =
      .ok ⟨[⟨.str "x", .str "x", .obj [("a", .str "x"), ("b", .str "y")]⟩], [.str "x"]⟩) := by
  have p1 : parseField "x" false true (.obj [("a", .str "x"), ("b", .str "y")]) "a"
      (.obj [("a", .str "x"), ("b", .str "y")]) ⟨[], []⟩ =
      .ok (⟨[⟨.str "x", .str "x", .obj [("a", .str "x"), ("b", .str "y")]⟩], [.str "x"]⟩, true) := by
    rw [parseField.eq_def, parseFieldFound.eq_def]
    rfl
  have p2 : parseField "x" false true (.obj []) "a" (.obj [])
      ⟨[⟨.str "x", .str "x", .obj [("a", .str "x"), ("b", .str "y")]⟩], [.str "x"]⟩ =
      .ok (⟨[⟨.str "x", .str "x", .obj [("a", .str "x"), ("b", .str "y")]⟩], [.str "x"]⟩, false) := by
    rw [parseField.eq_def, parseFieldFound.eq_def]
    rfl
  have p3 : parseField "x" false true (.obj []) "b" (.obj [])
      ⟨[⟨.str "x", .str "x", .obj [("a", .str "x"), ("b", .str "y")]⟩], [.str "x"]⟩ =
      .ok (⟨[⟨.str "x", .str "x", .obj [("a", .str "x"), ("b", .str "y")]⟩], [.str "x"]⟩, false) := by
    rw [parseField.eq_def, parseFieldFound.eq_def]
    rfl
  have q1 : parseField "x" true true (.obj [("a", .str "x"), ("b", .str "y")]) "a"
      (.obj [("a", .str "x"), ("b", .str "y")])
      ⟨[⟨.str "x", .str "x", .obj [("a", .str "x"), ("b", .str "y")]⟩], [.str "x"]⟩ =
      .ok (⟨[⟨.str "x", .str "x", .obj [("a", .str "x"), ("b", .str "y")]⟩], [.str "x"]⟩, false) := by
    rw [parseField.eq_def, parseFieldFound.eq_def]
    rfl
  have q2 : parseField "x" true true (.obj [("a", .str "x"), ("b", .str "y")]) "b"
      (.obj [("a", .str "x"), ("b", .str "y")])
      ⟨[⟨.str "x", .str "x", .obj [("a", .str "x"), ("b", .str "y")]⟩], [.str "x"]⟩ =
      .ok (⟨[⟨.str "x", .str "x", .obj [("a", .str "x"), ("b", .str "y")]⟩,
             ⟨.str "y", .str "y", .obj [("a", .str "x"), ("b", .str "y")]⟩],
            [.str "x", .str "y"]⟩, true) := by
    rw [parseField.eq_def, parseFieldFound.eq_def]
    rfl
  have q3 : parseField "x" true true (.obj []) "a" (.obj [])
      ⟨[⟨.str "x", .str "x", .obj [("a", .str "x"), ("b", .str "y")]⟩,
        ⟨.str "y", .str "y", .obj [("a", .str "x"), ("b", .str "y")]⟩],
       [.str "x", .str "y"]⟩ =
      .ok (⟨[⟨.str "x", .str "x", .obj [("a", .str "x"), ("b", .str "y")]⟩,
             ⟨.str "y", .str "y", .obj [("a", .str "x"), ("b", .str "y")]⟩],
            [.str "x", .str "y"]⟩, false) := by
    rw [parseField.eq_def, parseFieldFound.eq_def]
    rfl
  have q4 : parseField "x" true true (.obj []) "b" (.obj [])
      ⟨[⟨.str "x", .str "x", .obj [("a", .str "x"), ("b", .str "y")]⟩,
        ⟨.str "y", .str "y", .obj [("a", .str "x"), ("b", .str "y")]⟩],
       [.str "x", .str "y"]⟩ =
      .ok (⟨[⟨.str "x", .str "x", .obj [("a", .str "x"), ("b", .str "y")]⟩,
             ⟨.str "y", .str "y", .obj [("a", .str "x"), ("b", .str "y")]⟩],
            [.str "x", .str "y"]⟩, false) := by
    rw [parseField.eq_def, parseFieldFound.eq_def]
    rfl
  have r1 : parseField "x" true true (.obj [("a", .str "x"), ("b", .str "y")]) "a"
      (.obj [("a", .str "x"), ("b", .str "y")]) ⟨[], []⟩ =
      .ok (⟨[⟨.str "x", .str "x", .obj [("a", .str "x"), ("b", .str "y")]⟩], [.str "x"]⟩, true) := by
    rw [parseField.eq_def, parseFieldFound.eq_def]
    rfl
  refine ⟨?_, ?_, ?_⟩
  · rw [traverse_step_distinct (fieldsSome_step_true p1),
      traverse_step_distinct (by rw [fieldsSome_step_false p2, fieldsSome_step_false p3,
        fieldsSome_nil]),
      traverse_nil]
  · rw [traverse_step_distinct (by rw [fieldsSome_step_false q1, fieldsSome_step_true q2]),
      traverse_step_distinct (by rw [fieldsSome_step_false q3, fieldsSome_step_false q4,
        fieldsSome_nil]),
      traverse_nil]
  · have r2 : parseField "x" true true (.obj []) "a" (.obj [])
        ⟨[⟨.str "x", .str "x", .obj [("a", .str "x"), ("b", .str "y")]⟩], [.str "x"]⟩ =
        .ok (⟨[⟨.str "x", .str "x", .obj [("a", .str "x"), ("b", .str "y")]⟩], [.str "x"]⟩,
          false) := by
      rw [parseField.eq_def, parseFieldFound.eq_def]
      rfl
    have r3 : parseField "x" true true (.obj []) "b" (.obj [])
        ⟨[⟨.str "x", .str "x", .obj [("a", .str "x"), ("b", .str "y")]⟩], [.str "x"]⟩ =
        .ok (⟨[⟨.str "x", .str "x", .obj [("a", .str "x"), ("b", .str "y")]⟩], [.str "x"]⟩,
          false) := by
      rw [parseField.eq_def, parseFieldFound.eq_def]
      rfl
    rw [traverse_step_distinct (fieldsSome_step_true r1),
      traverse_step_distinct (by rw [fieldsSome_step_false r2, fieldsSome_step_false r3,
        fieldsSome_nil]),
      traverse_nil]

theorem c1_witness :
    (traverseSuggestions "x" false true ["a", "b"]
        [.obj [("a", .str "x"), ("b", .str "y")], .obj []] ⟨[], []⟩ =
      .ok ⟨[⟨.str "x", .str "x", .obj [("a", .str "x"), ("b", .str "y")]⟩], [.str "x"]⟩) ∧
    (getSuggestions ["a", "b"] [.obj [("a", .str "x"), ("b", .str "y")], .obj []] "x" true =
      .ok [⟨.str "x", .str "x", .obj [("a", .str "x"), ("b", .str "y")]⟩,
           ⟨.str "y", .str "y", .obj [("a", .str "x"), ("b", .str "y")]⟩]) := by
  obtain ⟨h1, h2, _⟩ := c1_run_facts
  exact ⟨h1,
    (c1_second_pass_extends_first ["a", "b"]
      [.obj [("a", .str "x"), ("b", .str "y")], .obj []] "x" true
      ⟨[⟨.str "x", .str "x", .obj [("a", .str "x"), ("b", .str "y")]⟩], [.str "x"]⟩
      ⟨[⟨.str "x", .str "x", .obj [("a", .str "x"), ("b", .str "y")]⟩,
        ⟨.str "y", .str "y", .obj [("a", .str "x"), ("b", .str "y")]⟩],
       [.str "x", .str "y"]⟩ h1 (by decide) h2).1⟩

/-- C1, counterexample to the claim as stated: on this input the second
pass is triggered (first pass produced 1 < 2 suggestions), yet the
returned list is **not** the result of a from-scratch second pass — it is
the first pass's list with the second pass's additions appended. -/
theorem c1_counterexample :
    (traverseSuggestions "x" false true ["a", "b"]
        [.obj [("a", .str "x"), ("b", .str "y")], .obj []] ⟨[], []⟩ =
      .ok ⟨[⟨.str "x", .str "x", .obj [("a", .str "x"), ("b", .str "y")]⟩], [.str "x"]⟩) ∧
    (getSuggestions ["a", "b"] [.obj [("a", .str "x"), ("b", .str "y")], .obj []] "x" true =
      .ok [⟨.str "x", .str "x", .obj [("a", .str "x"), ("b", .str "y")]⟩,
           ⟨.str "y", .str "y", .obj [("a", .str "x"), ("b", .str "y")]⟩]) ∧
    ((traverseSuggestions "x" true true ["a", "b"]
        [.obj [("a", .str "x"), ("b", .str "y")], .obj []] ⟨[], []⟩).map
          SuggState.suggestionsList =
      .ok [⟨.str "x", .str "x", .obj [("a", .str "x"), ("b", .str "y")]⟩]) ∧
    ¬(getSuggestions ["a", "b"] [.obj [("a", .str "x"), ("b", .str "y")], .obj []] "x" true =
      (traverseSuggestions "x" true true ["a", "b"]
        [.obj [("a", .str "x"), ("b", .str "y")], .obj []] ⟨[], []⟩).map
          SuggState.suggestionsList) := by
  obtain ⟨h1, h2, h3⟩ := c1_run_facts
  have htotal := getSuggestions_eq_two_pass h1 (by decide) h2
  refine ⟨h1, htotal, ?_, ?_⟩
  · rw [h3]
    rfl
  · rw [htotal, h3]
    simp [Except.map]

/-! ## Label uniqueness (C3) -/

/-- Invariant of the suggestion accumulators: every collected primitive
label is recorded in `labelsList` (array labels never are — `includes`
compares arrays by reference and they are always fresh), and any later
duplicate of an earlier primitive label came from a promoted source. -/
def SuggInv (st : SuggState) : Prop :=
  (∀ s ∈ st.suggestionsList, primitiveValue s.label = true →
    containsVal st.labelsList s.label = true) ∧
  (∀ i j (hi : i < st.suggestionsList.length) (hj : j < st.suggestionsList.length),
    i < j →
    primitiveValue (st.suggestionsList.get ⟨i, hi⟩).label = true →
    (st.suggestionsList.get ⟨i, hi⟩).label = (st.suggestionsList.get ⟨j, hj⟩).label →
    Promoted (st.suggestionsList.get ⟨j, hj⟩).source)

theorem suggInv_empty : SuggInv ⟨[], []⟩ := by
  constructor
  · intro s hs
    simp at hs
  · intro i j hi hj
    simp at hi

theorem populate_inv {cv : String} {skip d : Bool} {val ps src : JValue}
    {st st' : SuggState} {b : Bool}
    (h : populateSuggestionsList cv skip d val ps src st = .ok (st', b)) :
    SuggInv st → SuggInv st' := by
  intro hinv
  rcases populate_spec h with ⟨rfl, _⟩ | ⟨rfl, _, hacc⟩
  · exact hinv
  · obtain ⟨inv1, inv2⟩ := hinv
    constructor
    · intro s hs hsp
      simp only [pushSugg, List.mem_append, List.mem_singleton] at hs
      rcases hs with hs | rfl
      · simp only [pushSugg]
        rw [containsVal_append _ _ _ (not_arr_of_primitive hsp), inv1 s hs hsp]
        rfl
      · exact containsVal_push_self st.labelsList val (not_arr_of_primitive hsp)
    · intro i j hi hj hij hprim heq
      simp only [pushSugg, List.length_append, List.length_singleton] at hi hj
      by_cases hjlt : j < st.suggestionsList.length
      · have hilt : i < st.suggestionsList.length := Nat.lt_trans hij hjlt
        have hgi : (pushSugg st val src).suggestionsList.get
            ⟨i, by simp [pushSugg]; omega⟩ = st.suggestionsList.get ⟨i, hilt⟩ := by
          simp only [pushSugg, List.get_eq_getElem]
          exact List.getElem_append_left hilt
        have hgj : (pushSugg st val src).suggestionsList.get
            ⟨j, by simp [pushSugg]; omega⟩ = st.suggestionsList.get ⟨j, hjlt⟩ := by
          simp only [pushSugg, List.get_eq_getElem]
          exact List.getElem_append_left hjlt
        rw [hgi, hgj] at heq
        rw [hgi] at hprim
        rw [hgj]
        exact inv2 i j hilt hjlt hij hprim heq
      · have hjeq : j = st.suggestionsList.length := by omega
        have hilt : i < st.suggestionsList.length := by omega
        have hgi : (pushSugg st val src).suggestionsList.get
            ⟨i, by simp [pushSugg]; omega⟩ = st.suggestionsList.get ⟨i, hilt⟩ := by
          simp only [pushSugg, List.get_eq_getElem]
          exact List.getElem_append_left hilt
        have hgj : (pushSugg st val src).suggestionsList.get
            ⟨j, by simp [pushSugg]; omega⟩ = ⟨val, val, src⟩ := by
          simp only [pushSugg, List.get_eq_getElem]
          rw [List.getElem_append_right (by omega)]
          simp [hjeq]
        rw [hgi, hgj] at heq
        rw [hgi] at hprim
        rw [hgj]
        rcases hacc with ⟨_, hcont⟩ | hprom
        · exfalso
          have := inv1 _ (List.get_mem st.suggestionsList i hilt) hprim
          rw [heq] at this
          rw [this] at hcont
          exact absurd hcont (by simp)
        · exact hprom

/-- C3, amended: the duplicate-label guard
`labelsList.includes(val)` compares with SameValueZero — by value on
primitives, by reference on arrays — and every array candidate is a fresh
`flatten` result, so array labels are never blocked (see the
counterexample).  For primitive labels the guard is effective: in any
successful run of `getSuggestions`, whenever two entries of the returned
list share the same primitive label, the later entry's source document is
promoted (acceptance is `(isWordMatch && !labelsList.includes(val)) ||
source._promoted`, so only promotion bypasses the guard). -/
theorem c3_label_unique_unless_promoted
    (fields : List String) (docs : List JValue) (cv : String) (d : Bool)
    (l : List Suggestion) (h : getSuggestions fields docs cv d = .ok l)
    (i j : Nat) (hi : i < l.length) (hj : j < l.length) (hij : i < j)
    (hprim : primitiveValue (l.get ⟨i, hi⟩).label = true)
    (heq : (l.get ⟨i, hi⟩).label = (l.get ⟨j, hj⟩).label) :
    Promoted (l.get ⟨j, hj⟩).source := by
  have hinv : ∀ st st', traverseSuggestions cv false d fields docs st = .ok st' ∨
      traverseSuggestions cv true d fields docs st = .ok st' →
      SuggInv st → SuggInv st' := by
    intro st st' hd
    rcases hd with hd | hd <;>
      exact fun hs => @traverseSuggestions_rel (fun a b => SuggInv a → SuggInv b)
        (fun _ hx => hx) (fun _ _ _ f g hx => g (f hx))
        (fun _ _ _ _ _ _ _ _ _ hp => populate_inv hp) _ _ d fields docs st st' hd hs
  unfold getSuggestions at h
  split at h
  · exact absurd h (by simp)
  case h_2 st1 hp1 =>
    have hinv1 : SuggInv st1 := hinv _ _ (Or.inl hp1) suggInv_empty
    split at h
    · split at h
      · exact absurd h (by simp)
      case h_2 st2 hp2 =>
        have hinv2 : SuggInv st2 := hinv _ _ (Or.inr hp2) hinv1
        injection h with h'
        subst h'
        exact hinv2.2 i j hi hj hij hprim heq
    · injection h with h'
      subst h'
      exact hinv1.2 i j hi hj hij hprim heq


theorem c3_witness :
    Promoted (.obj [("f", .str "x"), ("_promoted", .bool true)]) := by
  have a1 : parseField "x" false true (.obj [("f", .str "x"), ("_promoted", .bool true)]) "f"
      (.obj [("f", .str "x"), ("_promoted", .bool true)]) ⟨[], []⟩ =
      .ok (⟨[⟨.str "x", .str "x", .obj [("f", .str "x"), ("_promoted", .bool true)]⟩],
        [.str "x"]⟩, true) := by
    rw [parseField.eq_def, parseFieldFound.eq_def]
    rfl
  have a2 : parseField "x" false true (.obj [("f", .str "y")]) "f" (.obj [("f", .str "y")])
      ⟨[⟨.str "x", .str "x", .obj [("f", .str "x"), ("_promoted", .bool true)]⟩], [.str "x"]⟩ =
      .ok (⟨[⟨.str "x", .str "x", .obj [("f", .str "x"), ("_promoted", .bool true)]⟩],
        [.str "x"]⟩, false) := by
    rw [parseField.eq_def, parseFieldFound.eq_def]
    rfl
  have b1 : parseField "x" true true (.obj [("f", .str "x"), ("_promoted", .bool true)]) "f"
      (.obj [("f", .str "x"), ("_promoted", .bool true)])
      ⟨[⟨.str "x", .str "x", .obj [("f", .str "x"), ("_promoted", .bool true)]⟩], [.str "x"]⟩ =
      .ok (⟨[⟨.str "x", .str "x", .obj [("f", .str "x"), ("_promoted", .bool true)]⟩,
             ⟨.str "x", .str "x", .obj [("f", .str "x"), ("_promoted", .bool true)]⟩],
            [.str "x", .str "x"]⟩, true) := by
    rw [parseField.eq_def, parseFieldFound.eq_def]
    rfl
  have b2 : parseField "x" true true (.obj [("f", .str "y")]) "f" (.obj [("f", .str "y")])
      ⟨[⟨.str "x", .str "x", .obj [("f", .str "x"), ("_promoted", .bool true)]⟩,
        ⟨.str "x", .str "x", .obj [("f", .str "x"), ("_promoted", .bool true)]⟩],
       [.str "x", .str "x"]⟩ =
      .ok (⟨[⟨.str "x", .str "x", .obj [("f", .str "x"), ("_promoted", .bool true)]⟩,
             ⟨.str "x", .str "x", .obj [("f", .str "x"), ("_promoted", .bool true)]⟩,
             ⟨.str "y", .str "y", .obj [("f", .str "y")]⟩],
            [.str "x", .str "x", .str "y"]⟩, true) := by
    rw [parseField.eq_def, parseFieldFound.eq_def]
    rfl
  have hpass1 : traverseSuggestions "x" false true ["f"]
      [.obj [("f", .str "x"), ("_promoted", .bool true)], .obj [("f", .str "y")]] ⟨[], []⟩ =
      .ok ⟨[⟨.str "x", .str "x", .obj [("f", .str "x"), ("_promoted", .bool true)]⟩],
        [.str "x"]⟩ := by
    rw [traverse_step_distinct (fieldsSome_step_true a1),
      traverse_step_distinct (by rw [fieldsSome_step_false a2, fieldsSome_nil]),
      traverse_nil]
  have hpass2 : traverseSuggestions "x" true true ["f"]
      [.obj [("f", .str "x"), ("_promoted", .bool true)], .obj [("f", .str "y")]]
      ⟨[⟨.str "x", .str "x", .obj [("f", .str "x"), ("_promoted", .bool true)]⟩], [.str "x"]⟩ =
      .ok ⟨[⟨.str "x", .str "x", .obj [("f", .str "x"), ("_promoted", .bool true)]⟩,
            ⟨.str "x", .str "x", .obj [("f", .str "x"), ("_promoted", .bool true)]⟩,
            ⟨.str "y", .str "y", .obj [("f", .str "y")]⟩],
           [.str "x", .str "x", .str "y"]⟩ := by
    rw [traverse_step_distinct (fieldsSome_step_true b1),
      traverse_step_distinct (fieldsSome_step_true b2),
      traverse_nil]
  have hrun : getSuggestions ["f"]
      [.obj [("f", .str "x"), ("_promoted", .bool true)], .obj [("f", .str "y")]] "x" true =
      .ok [⟨.str "x", .str "x", .obj [("f", .str "x"), ("_promoted", .bool true)]⟩,
           ⟨.str "x", .str "x", .obj [("f", .str "x"), ("_promoted", .bool true)]⟩,
           ⟨.str "y", .str "y", .obj [("f", .str "y")]⟩] :=
    getSuggestions_eq_two_pass hpass1 (by decide) hpass2
  have h := c3_label_unique_unless_promoted ["f"]
    [.obj [("f", .str "x"), ("_promoted", .bool true)], .obj [("f", .str "y")]]
    "x" true _ hrun 0 1 (by simp) (by simp) (by omega) (by rfl) (by rfl)
  simpa using h

/-- C3, counterexample to the claim as stated: `labelsList.includes`
compares arrays by reference (SameValueZero) and every array candidate is
a fresh `flatten` result, so whole-array candidates are never blocked by
the duplicate-label guard.  With two identical documents `{a:["x","y"]}`
and the empty search term, the non-distinct run returns four entries whose
third and fourth share the array label `["x","y"]`, although neither
source document is promoted — two entries share a label without
promotion. -/
theorem c3_counterexample :
    (getSuggestions ["a"]
      [.obj [("a", .arr [.str "x", .str "y"])], .obj [("a", .arr [.str "x", .str "y"])]]
      "" false =
      .ok [⟨.str "x", .str "x", .obj [("a", .arr [.str "x", .str "y"])]⟩,
           ⟨.str "y", .str "y", .obj [("a", .arr [.str "x", .str "y"])]⟩,
           ⟨.arr [.str "x", .str "y"], .arr [.str "x", .str "y"],
            .obj [("a", .arr [.str "x", .str "y"])]⟩,
           ⟨.arr [.str "x", .str "y"], .arr [.str "x", .str "y"],
            .obj [("a", .arr [.str "x", .str "y"])]⟩]) ∧
    (([⟨JValue.str "x", .str "x", .obj [("a", .arr [.str "x", .str "y"])]⟩,
       ⟨.str "y", .str "y", .obj [("a", .arr [.str "x", .str "y"])]⟩,
       ⟨.arr [.str "x", .str "y"], .arr [.str "x", .str "y"],
        .obj [("a", .arr [.str "x", .str "y"])]⟩,
       ⟨.arr [.str "x", .str "y"], .arr [.str "x", .str "y"],
        .obj [("a", .arr [.str "x", .str "y"])]⟩] : List Suggestion).get
        ⟨2, by decide⟩).label =
      (([⟨JValue.str "x", .str "x", .obj [("a", .arr [.str "x", .str "y"])]⟩,
         ⟨.str "y", .str "y", .obj [("a", .arr [.str "x", .str "y"])]⟩,
         ⟨.arr [.str "x", .str "y"], .arr [.str "x", .str "y"],
          .obj [("a", .arr [.str "x", .str "y"])]⟩,
         ⟨.arr [.str "x", .str "y"], .arr [.str "x", .str "y"],
          .obj [("a", .arr [.str "x", .str "y"])]⟩] : List Suggestion).get
          ⟨3, by decide⟩).label ∧
    ¬Promoted (.obj [("a", .arr [.str "x", .str "y"])]) := by
  have p1 : parseField "" false false (.obj [("a", .arr [.str "x", .str "y"])]) "a"
      (.obj [("a", .arr [.str "x", .str "y"])]) ⟨[], []⟩ =
      .ok (⟨[⟨.str "x", .str "x", .obj [("a", .arr [.str "x", .str "y"])]⟩,
             ⟨.str "y", .str "y", .obj [("a", .arr [.str "x", .str "y"])]⟩,
             ⟨.arr [.str "x", .str "y"], .arr [.str "x", .str "y"],
              .obj [("a", .arr [.str "x", .str "y"])]⟩],
            [.str "x", .str "y", .arr [.str "x", .str "y"]]⟩, false) := by
    rw [parseField.eq_def, parseFieldFound.eq_def]
    rfl
  have p2 : parseField "" false false (.obj [("a", .arr [.str "x", .str "y"])]) "a"
      (.obj [("a", .arr [.str "x", .str "y"])])
      ⟨[⟨.str "x", .str "x", .obj [("a", .arr [.str "x", .str "y"])]⟩,
        ⟨.str "y", .str "y", .obj [("a", .arr [.str "x", .str "y"])]⟩,
        ⟨.arr [.str "x", .str "y"], .arr [.str "x", .str "y"],
         .obj [("a", .arr [.str "x", .str "y"])]⟩],
       [.str "x", .str "y", .arr [.str "x", .str "y"]]⟩ =
      .ok (⟨[⟨.str "x", .str "x", .obj [("a", .arr [.str "x", .str "y"])]⟩,
             ⟨.str "y", .str "y", .obj [("a", .arr [.str "x", .str "y"])]⟩,
             ⟨.arr [.str "x", .str "y"], .arr [.str "x", .str "y"],
              .obj [("a", .arr [.str "x", .str "y"])]⟩,
             ⟨.arr [.str "x", .str "y"], .arr [.str "x", .str "y"],
              .obj [("a", .arr [.str "x", .str "y"])]⟩],
            [.str "x", .str "y", .arr [.str "x", .str "y"],
             .arr [.str "x", .str "y"]]⟩, false) := by
    rw [parseField.eq_def, parseFieldFound.eq_def]
    rfl
  have hpass : traverseSuggestions "" false false ["a"]
      [.obj [("a", .arr [.str "x", .str "y"])], .obj [("a", .arr [.str "x", .str "y"])]]
      ⟨[], []⟩ =
      .ok ⟨[⟨.str "x", .str "x", .obj [("a", .arr [.str "x", .str "y"])]⟩,
            ⟨.str "y", .str "y", .obj [("a", .arr [.str "x", .str "y"])]⟩,
            ⟨.arr [.str "x", .str "y"], .arr [.str "x", .str "y"],
             .obj [("a", .arr [.str "x", .str "y"])]⟩,
            ⟨.arr [.str "x", .str "y"], .arr [.str "x", .str "y"],
             .obj [("a", .arr [.str "x", .str "y"])]⟩],
           [.str "x", .str "y", .arr [.str "x", .str "y"],
            .arr [.str "x", .str "y"]]⟩ := by
    rw [traverse_step_all (by rw [fieldsForEach_step p1, fieldsForEach_nil]),
      traverse_step_all (by rw [fieldsForEach_step p2, fieldsForEach_nil]),
      traverse_nil]
  refine ⟨getSuggestions_eq_one_pass hpass (by decide), rfl, ?_⟩
  rintro ⟨p, hp, ht⟩
  have hp2 : (Except.ok JValue.undef : JsM JValue) = .ok p := hp
  injection hp2 with hp3
  rw [← hp3] at ht
  exact Bool.noConfusion ht

/-! ## Empty search term (C10) -/

/-- C10: with the empty search term (the default), the word-match test
accepts every candidate value — `"".trim().split(' ')` is `[""]` and the
empty string is a substring of every stringified value — so acceptance is
governed solely by the duplicate-label guard (or promotion): whenever the
candidate's label is not already used, it is accepted. -/
theorem c10_empty_term_matches_all :
    (∀ (skip : Bool) (v : JValue), isWordMatch skip "" v = true) ∧
    (jsSplit (jsTrim "") ' ' = [""]) ∧
    (∀ (d : Bool) (val ps src : JValue) (st : SuggState),
      containsVal st.labelsList val = false →
      populateSuggestionsList "" false d val ps src st = .ok (pushSugg st val src, d)) := by
  refine ⟨isWordMatch_empty, rfl, ?_⟩
  intro d val ps src st hcont
  unfold populateSuggestionsList
  rw [isWordMatch_empty, hcont]
  rfl

theorem c10_witness :
    containsVal (SuggState.mk [] []).labelsList (.num 7) = false ∧
    populateSuggestionsList "" false true (.num 7) (.obj []) (.obj [("f", .num 7)])
      ⟨[], []⟩ = .ok (pushSugg ⟨[], []⟩ (.num 7) (.obj [("f", .num 7)]), true) :=
  ⟨rfl, (c10_empty_term_matches_all.2.2 true (.num 7) (.obj []) (.obj [("f", .num 7)])
    ⟨[], []⟩ rfl)⟩

/-! ## Word-match case sensitivity (C4) -/

/-- Modelled from the spec's words for C4: "splitting `currentValue` on
spaces and lower-casing yields at least one term that is a
case-insensitive substring of the stringified candidate value" — i.e.
both the split terms and the candidate are lower-cased before the
substring test. -/
def wordMatchSpecC4 (skip : Bool) (currentValue : String) (val : JValue) : Bool :=
  skip || (jsSplit (jsTrim currentValue) ' ').any
    (fun term => strIncludes (jsToLower (jsToString val)) (jsToLower term))

/-- C4, counterexample to the claim as stated: the code lower-cases only
the stringified candidate value, not the search terms, so with the search
term `"A"` and candidate `"a"` the code's test rejects while the spec's
case-insensitive test accepts. -/
theorem c4_counterexample :
    isWordMatch false "A" (.str "a") = false ∧
    wordMatchSpecC4 false "A" (.str "a") = true := ⟨rfl, rfl⟩

/-- C4, amended: the test lower-cases the stringified candidate value but
leaves the split terms as written, so it is case-insensitive in the
candidate value only — the outcome depends on the candidate solely
through its lower-cased stringification, and acceptance (without
`skipWordMatch`) means some raw term is a substring of that lower-cased
string. -/
theorem c4_value_case_insensitive :
    (∀ (skip : Bool) (cv : String) (v w : JValue),
      jsToLower (jsToString v) = jsToLower (jsToString w) →
      isWordMatch skip cv v = isWordMatch skip cv w) ∧
    (∀ (cv : String) (val : JValue),
      isWordMatch false cv val =
        (jsSplit (jsTrim cv) ' ').any
          (fun term => strIncludes (jsToLower (jsToString val)) term)) := by
  constructor
  · intro skip cv v w h
    unfold isWordMatch
    rw [h]
  · intro cv val
    unfold isWordMatch
    rw [Bool.false_or]

theorem c4_witness :
    jsToLower (jsToString (.str "A")) = jsToLower (jsToString (.str "a")) ∧
    isWordMatch false "A" (.str "A") = isWordMatch false "A" (.str "a") :=
  ⟨rfl, c4_value_case_insensitive.1 false "A" (.str "A") (.str "a") rfl⟩

/-! ## Silent failure and thrown errors (C5) -/

/-- C5, counterexample to the claim as stated: a `null` document in the
suggestions array makes `parseField` (and hence `getSuggestions`) throw —
`typeof null === 'object'` passes the guard and `null[field]` raises a
`TypeError` — and a bucket whose `key` is absent makes `parseCompAggToHits`
throw on `key[aggFieldName]`. -/
theorem c5_counterexample :
    getSuggestions ["f"] [.null] "" true = .error () ∧
    parseCompAggToHits "agg" (some [.obj [("doc_count", .num 4)]]) = .error () := by
  constructor
  · have pf : parseField "" false true .null "f" .null ⟨[], []⟩ = .error () := by
      rw [parseField.eq_def]
      rfl
    exact getSuggestions_error
      (traverse_step_distinct_error (fieldsSome_step_error pf))
  · rfl

/-- C5, amended: the transformation functions fail silently on non-object
nodes and on absent fields or buckets — a non-object (and non-null)
`parsedSource` and a missing first path segment both yield `(st, false)`
without error, and an absent `buckets` argument yields `[]` — but
property access on `null`/`undefined` (null document nodes, buckets with
a missing or null `key`) throws instead of failing silently. -/
theorem c5_silent_failure_non_null :
    (∀ (cv : String) (skip d : Bool) (v : JValue) (field : String) (src : JValue)
      (st : SuggState), typeofObject v = false →
      parseField cv skip d v field src st = .ok (st, false)) ∧
    (∀ (cv : String) (skip d : Bool) (fs : List (String × JValue)) (field : String)
      (src : JValue) (st : SuggState),
      getField fs ((jsSplit field '.').headD "") = .undef →
      parseField cv skip d (.obj fs) field src st = .ok (st, false)) ∧
    (∀ f : String, parseCompAggToHits f none = .ok []) := by
  refine ⟨?_, ?_, fun f => rfl⟩
  · intro cv skip d v field src st h
    rw [parseField.eq_def]
    rw [dif_neg (by simp [h])]
  · intro cv skip d fs field src st h
    rw [parseField.eq_def]
    rw [dif_pos (show typeofObject (.obj fs) = true from rfl),
      dif_neg (show ¬(isNullB (.obj fs) = true) by simp [isNullB])]
    rw [parseFieldFound.eq_def]
    simp only [ownGet]
    rw [h]
    rfl

theorem c5_witness :
    typeofObject (.num 5) = false ∧
    parseField "q" false true (.num 5) "f" (.num 5) ⟨[], []⟩ = .ok (⟨[], []⟩, false) ∧
    getField [("g", .str "v")] ((jsSplit "f" '.').headD "") = .undef ∧
    parseField "q" false true (.obj [("g", .str "v")]) "f" (.obj [("g", .str "v")])
      ⟨[], []⟩ = .ok (⟨[], []⟩, false) ∧
    parseCompAggToHits "agg" none = .ok [] :=
  ⟨rfl,
   c5_silent_failure_non_null.1 "q" false true (.num 5) "f" (.num 5) ⟨[], []⟩ rfl,
   rfl,
   c5_silent_failure_non_null.2.1 "q" false true [("g", .str "v")] "f"
     (.obj [("g", .str "v")]) ⟨[], []⟩ rfl,
   c5_silent_failure_non_null.2.2 "agg"⟩

/-! ## Distinct-mode cardinality (C2) -/

theorem splitChars_no_sep {sep : Char} :
    ∀ cs : List Char, (∀ c ∈ cs, c ≠ sep) → splitChars sep cs = [cs] := by
  intro cs
  induction cs with
  | nil => intro _; rfl
  | cons c rest ih =>
    intro h
    conv_lhs => rw [splitChars.eq_def]
    simp only []
    rw [ih (fun x hx => h x (List.mem_cons_of_mem c hx))]
    simp only []
    rw [if_neg (h c (List.mem_cons_self c rest))]

theorem jsSplit_no_dot {field : String} (h : ∀ c ∈ field.data, c ≠ '.') :
    jsSplit field '.' = [field] := by
  unfold jsSplit
  rw [splitChars_no_sep field.data h]
  rfl

theorem someAccept_len {cv : String} {skip : Bool} :
    ∀ (vs : List JValue) (ps src : JValue) (st st' : SuggState) (b : Bool),
      someAccept cv skip true vs ps src st = .ok (st', b) →
      (b = true → st'.suggestionsList.length = st.suggestionsList.length + 1) ∧
      (b = false → st' = st) := by
  intro vs
  induction vs with
  | nil =>
    intro ps src st st' b h
    unfold someAccept at h
    injection h with h'
    injection h' with h1 h2
    refine ⟨fun hb => ?_, fun _ => h1.symm⟩
    rw [hb] at h2
    exact absurd h2 (by simp)
  | cons v rest ih =>
    intro ps src st st' b h
    conv at h => rw [someAccept.eq_def]
    simp only [] at h
    split at h
    · exact absurd h (by simp)
    · rename_i st1 b1 hp
      split at h
      · rename_i hb1
        injection h with h'
        injection h' with h1 h2
        rcases populate_spec hp with ⟨he, hb⟩ | ⟨he, _, _⟩
        · rw [hb] at hb1
          exact absurd hb1 (by simp)
        · refine ⟨fun _ => ?_, fun hb => ?_⟩
          · rw [← h1, he]
            simp [pushSugg]
          · rw [hb] at h2
            exact absurd h2 (by simp)
      · rename_i hb1
        rcases populate_spec hp with ⟨he, _⟩ | ⟨he, hbd, _⟩
        · rw [he] at h
          exact ih ps src st st' b h
        · exact absurd hbd hb1

theorem parseField_flat_len {cv : String} {skip : Bool} {ps : JValue} {field : String}
    {src : JValue} {st st' : SuggState} {b : Bool}
    (hfield : ∀ c ∈ field.data, c ≠ '.')
    (h : parseField cv skip true ps field src st = .ok (st', b)) :
    (b = true → st'.suggestionsList.length = st.suggestionsList.length + 1) ∧
    (b = false → st' = st) := by
  have hfalse : ∀ (hx : (st, false) = (st', b)),
      (b = true → st'.suggestionsList.length = st.suggestionsList.length + 1) ∧
      (b = false → st' = st) := by
    intro hx
    injection hx with ha hb
    refine ⟨fun hbt => ?_, fun _ => ha.symm⟩
    rw [hbt] at hb
    exact absurd hb (by simp)
  rw [parseField.eq_def] at h
  by_cases h1 : typeofObject ps = true
  · rw [dif_pos h1] at h
    by_cases h2 : isNullB ps = true
    · rw [dif_pos h2] at h
      exact absurd h (by simp)
    · rw [dif_neg h2] at h
      rw [parseFieldFound.eq_def] at h
      simp only [] at h
      rw [jsSplit_no_dot hfield] at h
      split at h
      · rename_i hl
        rw [if_neg (by simp)] at h
        split at h
        · rename_i hv
          split at h
          · rename_i vs hvs
            rw [if_true] at h
            exact someAccept_len vs ps src st st' b h
          · rcases populate_spec h with ⟨he, hb⟩ | ⟨he, hbd, _⟩
            · refine ⟨fun hbt => ?_, fun _ => he⟩
              rw [hbt] at hb
              exact absurd hb (by simp)
            · refine ⟨fun _ => ?_, fun hbf => ?_⟩
              · rw [he]
                simp [pushSugg]
              · rw [hbf] at hbd
                exact absurd hbd.symm (by simp)
        · rename_i hv
          injection h with h'
          exact hfalse h'
      · rename_i hl
        injection h with h'
        exact hfalse h'
  · rw [dif_neg h1] at h
    injection h with h'
    exact hfalse h'

theorem fieldsSome_flat_bound {cv : String} {skip : Bool} {item : JValue} :
    ∀ (fields : List String) (st st' : SuggState),
      (∀ f ∈ fields, ∀ c ∈ f.data, c ≠ '.') →
      fieldsSome cv skip true item fields st = .ok st' →
      st'.suggestionsList.length ≤ st.suggestionsList.length + 1 := by
  intro fields
  induction fields with
  | nil =>
    intro st st' _ h
    unfold fieldsSome at h
    injection h with h'
    rw [← h']
    exact Nat.le_succ _
  | cons f rest ih =>
    intro st st' hfl h
    conv at h => rw [fieldsSome.eq_def]
    simp only [] at h
    split at h
    · exact absurd h (by simp)
    · rename_i st1 b1 hp
      have hc := parseField_flat_len (hfl f (List.mem_cons_self f rest)) hp
      split at h
      · rename_i hb1
        injection h with h'
        rw [← h', hc.1 hb1]
      · rename_i hb1
        rw [hc.2 (Bool.of_not_eq_true hb1)] at h
        exact ih st st' (fun g hg => hfl g (List.mem_cons_of_mem f hg)) h

theorem traverse_flat_bound {cv : String} {skip : Bool} {fields : List String}
    (hfl : ∀ f ∈ fields, ∀ c ∈ f.data, c ≠ '.') :
    ∀ (docs : List JValue) (st st' : SuggState),
      traverseSuggestions cv skip true fields docs st = .ok st' →
      st'.suggestionsList.length ≤ st.suggestionsList.length + docs.length := by
  intro docs
  induction docs with
  | nil =>
    intro st st' h
    unfold traverseSuggestions at h
    injection h with h'
    rw [← h']
    simp
  | cons item rest ih =>
    intro st st' h
    conv at h => rw [traverseSuggestions.eq_def]
    simp only [] at h
    rw [if_true] at h
    split at h
    · exact absurd h (by simp)
    · rename_i st1 hp
      have h1 := fieldsSome_flat_bound fields st st1 hfl hp
      have h2 := ih st1 st' h
      simp only [List.length_cons]
      omega

/-- C2, amended: when every configured field name is flat (contains no
`'.'`), each of the at-most-two distinct-mode passes contributes at most
one suggestion per document (fields are tried in order, stopping at the
first accepted one), so the returned list has length at most `2·|D|`.
(The claim's bound `|D|` fails because the second pass appends to the
first pass's list; nested paths over arrays can also accept several
values per document even in distinct mode.) -/
theorem c2_flat_fields_length_bound
    (fields : List String) (docs : List JValue) (cv : String) (l : List Suggestion)
    (hfl : ∀ f ∈ fields, ∀ c ∈ f.data, c ≠ '.')
    (h : getSuggestions fields docs cv true = .ok l) :
    l.length ≤ 2 * docs.length := by
  unfold getSuggestions at h
  split at h
  · exact absurd h (by simp)
  · rename_i st1 hp1
    have hb1 := traverse_flat_bound hfl docs ⟨[], []⟩ st1 hp1
    simp only [List.length_nil] at hb1
    split at h
    · split at h
      · exact absurd h (by simp)
      · rename_i st2 hp2
        have hb2 := traverse_flat_bound hfl docs st1 st2 hp2
        injection h with h'
        rw [← h']
        omega
    · injection h with h'
      rw [← h']
      omega

/-- C2, counterexample to the claim as stated: on two flat fields and
three documents, with the empty search term, the first pass accepts one
suggestion per non-empty document (2 of 3 documents), which triggers the
second pass; the second pass appends one more suggestion per non-empty
document, so the run returns 4 suggestions for 3 documents. -/
theorem c2_counterexample :
    ¬(∀ l, getSuggestions ["a", "b"]
        [.obj [("a", .str "x"), ("b", .str "y")], .obj [("a", .str "u"), ("b", .str "v")], .obj []] "" true = .ok l →
      l.length ≤ 3) := by
  have e1 : parseField "" false true (.obj [("a", .str "x"), ("b", .str "y")]) "a" (.obj [("a", .str "x"), ("b", .str "y")])
      ((⟨[], []⟩ : SuggState)) =
      .ok ((⟨[⟨.str "x", .str "x", .obj [("a", .str "x"), ("b", .str "y")]⟩], [.str "x"]⟩), true) := by
    rw [parseField.eq_def, parseFieldFound.eq_def]
    rfl
  have e2 : parseField "" false true (.obj [("a", .str "u"), ("b", .str "v")]) "a" (.obj [("a", .str "u"), ("b", .str "v")])
      (⟨[⟨.str "x", .str "x", .obj [("a", .str "x"), ("b", .str "y")]⟩], [.str "x"]⟩) =
      .ok ((⟨[⟨.str "x", .str "x", .obj [("a", .str "x"), ("b", .str "y")]⟩, ⟨.str "u", .str "u", .obj [("a", .str "u"), ("b", .str "v")]⟩], [.str "x", .str "u"]⟩), true) := by
    rw [parseField.eq_def, parseFieldFound.eq_def]
    rfl
  have e3 : parseField "" false true (.obj []) "a" (.obj [])
      (⟨[⟨.str "x", .str "x", .obj [("a", .str "x"), ("b", .str "y")]⟩, ⟨.str "u", .str "u", .obj [("a", .str "u"), ("b", .str "v")]⟩], [.str "x", .str "u"]⟩) =
      .ok ((⟨[⟨.str "x", .str "x", .obj [("a", .str "x"), ("b", .str "y")]⟩, ⟨.str "u", .str "u", .obj [("a", .str "u"), ("b", .str "v")]⟩], [.str "x", .str "u"]⟩), false) := by
    rw [parseField.eq_def, parseFieldFound.eq_def]
    rfl
  have e4 : parseField "" false true (.obj []) "b" (.obj [])
      (⟨[⟨.str "x", .str "x", .obj [("a", .str "x"), ("b", .str "y")]⟩, ⟨.str "u", .str "u", .obj [("a", .str "u"), ("b", .str "v")]⟩], [.str "x", .str "u"]⟩) =
      .ok ((⟨[⟨.str "x", .str "x", .obj [("a", .str "x"), ("b", .str "y")]⟩, ⟨.str "u", .str "u", .obj [("a", .str "u"), ("b", .str "v")]⟩], [.str "x", .str "u"]⟩), false) := by
    rw [parseField.eq_def, parseFieldFound.eq_def]
    rfl
  have f1 : parseField "" true true (.obj [("a", .str "x"), ("b", .str "y")]) "a" (.obj [("a", .str "x"), ("b", .str "y")])
      (⟨[⟨.str "x", .str "x", .obj [("a", .str "x"), ("b", .str "y")]⟩, ⟨.str "u", .str "u", .obj [("a", .str "u"), ("b", .str "v")]⟩], [.str "x", .str "u"]⟩) =
      .ok ((⟨[⟨.str "x", .str "x", .obj [("a", .str "x"), ("b", .str "y")]⟩, ⟨.str "u", .str "u", .obj [("a", .str "u"), ("b", .str "v")]⟩], [.str "x", .str "u"]⟩), false) := by
    rw [parseField.eq_def, parseFieldFound.eq_def]
    rfl
  have f2 : parseField "" true true (.obj [("a", .str "x"), ("b", .str "y")]) "b" (.obj [("a", .str "x"), ("b", .str "y")])
      (⟨[⟨.str "x", .str "x", .obj [("a", .str "x"), ("b", .str "y")]⟩, ⟨.str "u", .str "u", .obj [("a", .str "u"), ("b", .str "v")]⟩], [.str "x", .str "u"]⟩) =
      .ok ((⟨[⟨.str "x", .str "x", .obj [("a", .str "x"), ("b", .str "y")]⟩, ⟨.str "u", .str "u", .obj [("a", .str "u"), ("b", .str "v")]⟩, ⟨.str "y", .str "y", .obj [("a", .str "x"), ("b", .str "y")]⟩], [.str "x", .str "u", .str "y"]⟩), true) := by
    rw [parseField.eq_def, parseFieldFound.eq_def]
    rfl
  have f3 : parseField "" true true (.obj [("a", .str "u"), ("b", .str "v")]) "a" (.obj [("a", .str "u"), ("b", .str "v")])
      (⟨[⟨.str "x", .str "x", .obj [("a", .str "x"), ("b", .str "y")]⟩, ⟨.str "u", .str "u", .obj [("a", .str "u"), ("b", .str "v")]⟩, ⟨.str "y", .str "y", .obj [("a", .str "x"), ("b", .str "y")]⟩], [.str "x", .str "u", .str "y"]⟩) =
      .ok ((⟨[⟨.str "x", .str "x", .obj [("a", .str "x"), ("b", .str "y")]⟩, ⟨.str "u", .str "u", .obj [("a", .str "u"), ("b", .str "v")]⟩, ⟨.str "y", .str "y", .obj [("a", .str "x"), ("b", .str "y")]⟩], [.str "x", .str "u", .str "y"]⟩), false) := by
    rw [parseField.eq_def, parseFieldFound.eq_def]
    rfl
  have f4 : parseField "" true true (.obj [("a", .str "u"), ("b", .str "v")]) "b" (.obj [("a", .str "u"), ("b", .str "v")])
      (⟨[⟨.str "x", .str "x", .obj [("a", .str "x"), ("b", .str "y")]⟩, ⟨.str "u", .str "u", .obj [("a", .str "u"), ("b", .str "v")]⟩, ⟨.str "y", .str "y", .obj [("a", .str "x"), ("b", .str "y")]⟩], [.str "x", .str "u", .str "y"]⟩) =
      .ok ((⟨[⟨.str "x", .str "x", .obj [("a", .str "x"), ("b", .str "y")]⟩, ⟨.str "u", .str "u", .obj [("a", .str "u"), ("b", .str "v")]⟩, ⟨.str "y", .str "y", .obj [("a", .str "x"), ("b", .str "y")]⟩, ⟨.str "v", .str "v", .obj [("a", .str "u"), ("b", .str "v")]⟩], [.str "x", .str "u", .str "y", .str "v"]⟩), true) := by
    rw [parseField.eq_def, parseFieldFound.eq_def]
    rfl
  have f5 : parseField "" true true (.obj []) "a" (.obj [])
      (⟨[⟨.str "x", .str "x", .obj [("a", .str "x"), ("b", .str "y")]⟩, ⟨.str "u", .str "u", .obj [("a", .str "u"), ("b", .str "v")]⟩, ⟨.str "y", .str "y", .obj [("a", .str "x"), ("b", .str "y")]⟩, ⟨.str "v", .str "v", .obj [("a", .str "u"), ("b", .str "v")]⟩], [.str "x", .str "u", .str "y", .str "v"]⟩) =
      .ok ((⟨[⟨.str "x", .str "x", .obj [("a", .str "x"), ("b", .str "y")]⟩, ⟨.str "u", .str "u", .obj [("a", .str "u"), ("b", .str "v")]⟩, ⟨.str "y", .str "y", .obj [("a", .str "x"), ("b", .str "y")]⟩, ⟨.str "v", .str "v", .obj [("a", .str "u"), ("b", .str "v")]⟩], [.str "x", .str "u", .str "y", .str "v"]⟩), false) := by
    rw [parseField.eq_def, parseFieldFound.eq_def]
    rfl
  have f6 : parseField "" true true (.obj []) "b" (.obj [])
      (⟨[⟨.str "x", .str "x", .obj [("a", .str "x"), ("b", .str "y")]⟩, ⟨.str "u", .str "u", .obj [("a", .str "u"), ("b", .str "v")]⟩, ⟨.str "y", .str "y", .obj [("a", .str "x"), ("b", .str "y")]⟩, ⟨.str "v", .str "v", .obj [("a", .str "u"), ("b", .str "v")]⟩], [.str "x", .str "u", .str "y", .str "v"]⟩) =
      .ok ((⟨[⟨.str "x", .str "x", .obj [("a", .str "x"), ("b", .str "y")]⟩, ⟨.str "u", .str "u", .obj [("a", .str "u"), ("b", .str "v")]⟩, ⟨.str "y", .str "y", .obj [("a", .str "x"), ("b", .str "y")]⟩, ⟨.str "v", .str "v", .obj [("a", .str "u"), ("b", .str "v")]⟩], [.str "x", .str "u", .str "y", .str "v"]⟩), false) := by
    rw [parseField.eq_def, parseFieldFound.eq_def]
    rfl
  have hpass1 : traverseSuggestions "" false true ["a", "b"]
      [.obj [("a", .str "x"), ("b", .str "y")], .obj [("a", .str "u"), ("b", .str "v")], .obj []] ⟨[], []⟩ =
      .ok (⟨[⟨.str "x", .str "x", .obj [("a", .str "x"), ("b", .str "y")]⟩, ⟨.str "u", .str "u", .obj [("a", .str "u"), ("b", .str "v")]⟩], [.str "x", .str "u"]⟩) := by
    rw [traverse_step_distinct (fieldsSome_step_true e1),
      traverse_step_distinct (fieldsSome_step_true e2),
      traverse_step_distinct (by rw [fieldsSome_step_false e3, fieldsSome_step_false e4,
        fieldsSome_nil]),
      traverse_nil]
  have hpass2 : traverseSuggestions "" true true ["a", "b"]
      [.obj [("a", .str "x"), ("b", .str "y")], .obj [("a", .str "u"), ("b", .str "v")], .obj []]
      (⟨[⟨.str "x", .str "x", .obj [("a", .str "x"), ("b", .str "y")]⟩, ⟨.str "u", .str "u", .obj [("a", .str "u"), ("b", .str "v")]⟩], [.str "x", .str "u"]⟩) =
      .ok (⟨[⟨.str "x", .str "x", .obj [("a", .str "x"), ("b", .str "y")]⟩, ⟨.str "u", .str "u", .obj [("a", .str "u"), ("b", .str "v")]⟩, ⟨.str "y", .str "y", .obj [("a", .str "x"), ("b", .str "y")]⟩, ⟨.str "v", .str "v", .obj [("a", .str "u"), ("b", .str "v")]⟩], [.str "x", .str "u", .str "y", .str "v"]⟩) := by
    rw [traverse_step_distinct (by rw [fieldsSome_step_false f1, fieldsSome_step_true f2]),
      traverse_step_distinct (by rw [fieldsSome_step_false f3, fieldsSome_step_true f4]),
      traverse_step_distinct (by rw [fieldsSome_step_false f5, fieldsSome_step_false f6,
        fieldsSome_nil]),
      traverse_nil]
  have hrun : getSuggestions ["a", "b"]
      [.obj [("a", .str "x"), ("b", .str "y")], .obj [("a", .str "u"), ("b", .str "v")], .obj []] "" true =
      .ok [⟨.str "x", .str "x", .obj [("a", .str "x"), ("b", .str "y")]⟩, ⟨.str "u", .str "u", .obj [("a", .str "u"), ("b", .str "v")]⟩, ⟨.str "y", .str "y", .obj [("a", .str "x"), ("b", .str "y")]⟩, ⟨.str "v", .str "v", .obj [("a", .str "u"), ("b", .str "v")]⟩] :=
    getSuggestions_eq_two_pass hpass1 (by decide) hpass2
  intro hall
  have := hall _ hrun
  simp at this

theorem c2_witness :
    (∀ f ∈ ["a"], ∀ c ∈ f.data, c ≠ '.') ∧
    getSuggestions ["a"] [.obj [("a", .str "u")]] "" true =
      .ok [⟨.str "u", .str "u", .obj [("a", .str "u")]⟩] ∧
    ([⟨.str "u", .str "u", .obj [("a", .str "u")]⟩] : List Suggestion).length ≤
      2 * ([(.obj [("a", .str "u")] : JValue)] : List JValue).length := by
  have p1 : parseField "" false true (.obj [("a", .str "u")]) "a" (.obj [("a", .str "u")])
      (⟨[], []⟩ : SuggState) =
      .ok ((⟨[⟨.str "u", .str "u", .obj [("a", .str "u")]⟩], [.str "u"]⟩ : SuggState),
        true) := by
    rw [parseField.eq_def, parseFieldFound.eq_def]
    rfl
  have hpass1 : traverseSuggestions "" false true ["a"] [.obj [("a", .str "u")]] ⟨[], []⟩ =
      .ok ⟨[⟨.str "u", .str "u", .obj [("a", .str "u")]⟩], [.str "u"]⟩ := by
    rw [traverse_step_distinct (fieldsSome_step_true p1), traverse_nil]
  have hrun : getSuggestions ["a"] [.obj [("a", .str "u")]] "" true =
      .ok [⟨.str "u", .str "u", .obj [("a", .str "u")]⟩] :=
    getSuggestions_eq_one_pass hpass1 (by decide)
  exact ⟨by decide, hrun,
    c2_flat_fields_length_bound ["a"] [.obj [("a", .str "u")]] "" _ (by decide) hrun⟩

/-! ## Field/weight normalization (C9) -/

/-- Stated from the claim's words (C9): the field name an entry
contributes to the name sequence — string entries pass through, object
entries contribute their `.field`, entries without a (truthy) `.field`
are skipped. -/
def specFieldName (v : JValue) : Option JValue :=
  match v with
  | .str s => some (.str s)
  | .obj fs => if truthy (getField fs "field") then some (getField fs "field") else none
  | _ => none

/-- Stated from the claim's words (C9): the weight an entry contributes —
its `.weight` when that is a (finite) number, else the default `1`. -/
def specWeight (v : JValue) : JValue :=
  match v with
  | .obj fs => if isNumber (getField fs "weight") then getField fs "weight" else .num 1
  | _ => .num 1

/-- An entry of the declared field-spec type `string | DataField`. -/
def isFieldSpecEntry : JValue → Bool
  | .str _ => true
  | .obj _ => true
  | _ => false

theorem collectFields_eq :
    ∀ entries : List JValue, (∀ e ∈ entries, isFieldSpecEntry e = true) →
      collectFields entries = .ok (entries.filterMap specFieldName) := by
  intro entries
  induction entries with
  | nil => intro _; rfl
  | cons e rest ih =>
    intro h
    have hrest := ih (fun x hx => h x (List.mem_cons_of_mem e hx))
    conv_lhs => rw [collectFields.eq_def]
    cases e with
    | str s =>
      simp only []
      rw [hrest]
      simp [specFieldName]
    | obj fs =>
      simp only [jsGet]
      rw [hrest]
      simp only []
      by_cases ht : truthy (getField fs "field") = true
      · rw [if_pos ht]
        simp [specFieldName, ht]
      · rw [if_neg ht]
        simp only [List.filterMap_cons, specFieldName, if_neg ht]
    | undef => exact absurd (h _ (List.mem_cons_self _ rest)) (by simp [isFieldSpecEntry])
    | null => exact absurd (h _ (List.mem_cons_self _ rest)) (by simp [isFieldSpecEntry])
    | bool b => exact absurd (h _ (List.mem_cons_self _ rest)) (by simp [isFieldSpecEntry])
    | num n => exact absurd (h _ (List.mem_cons_self _ rest)) (by simp [isFieldSpecEntry])
    | arr xs => exact absurd (h _ (List.mem_cons_self _ rest)) (by simp [isFieldSpecEntry])

theorem collectWeights_eq :
    ∀ entries : List JValue, (∀ e ∈ entries, isFieldSpecEntry e = true) →
      collectWeights entries = .ok (entries.map specWeight) := by
  intro entries
  induction entries with
  | nil => intro _; rfl
  | cons e rest ih =>
    intro h
    have hrest := ih (fun x hx => h x (List.mem_cons_of_mem e hx))
    conv_lhs => rw [collectWeights.eq_def]
    cases e with
    | str s =>
      simp only [jsGet]
      rw [hrest]
      simp [specWeight, strGet, decodeIndex, isNumber]
    | obj fs =>
      simp only [jsGet]
      rw [hrest]
      simp only []
      by_cases hn : isNumber (getField fs "weight") = true
      · rw [if_pos hn]
        simp [specWeight, hn]
      · rw [if_neg hn]
        simp only [List.map_cons, specWeight, if_neg hn]
    | undef => exact absurd (h _ (List.mem_cons_self _ rest)) (by simp [isFieldSpecEntry])
    | null => exact absurd (h _ (List.mem_cons_self _ rest)) (by simp [isFieldSpecEntry])
    | bool b => exact absurd (h _ (List.mem_cons_self _ rest)) (by simp [isFieldSpecEntry])
    | num n => exact absurd (h _ (List.mem_cons_self _ rest)) (by simp [isFieldSpecEntry])
    | arr xs => exact absurd (h _ (List.mem_cons_self _ rest)) (by simp [isFieldSpecEntry])

/-- C9, amended: for every **non-empty** field-spec array of well-typed
entries, `getNormalizedField` returns the field names in input order
(strings pass through, objects contribute their truthy `.field`, other
object entries are skipped with no placeholder), and
`getNormalizedWeights` returns exactly one weight per input entry
(`.weight` when it is a number, else `1`), so the weight list has the
input array's length.  (For the empty array both functions return
`undefined`, not empty lists — see the counterexample.) -/
theorem c9_field_weight_alignment
    (entries : List JValue) (hne : entries ≠ [])
    (hwt : ∀ e ∈ entries, isFieldSpecEntry e = true) :
    getNormalizedField (.arr entries) = .ok (some (entries.filterMap specFieldName)) ∧
    getNormalizedWeights (.arr entries) = .ok (some (entries.map specWeight)) ∧
    (entries.map specWeight).length = entries.length := by
  have hlen : entries.length ≠ 0 := fun h0 => hne (List.length_eq_zero.mp h0)
  refine ⟨?_, ?_, by simp⟩
  · unfold getNormalizedField
    rw [if_pos (show truthy (JValue.arr entries) = true from rfl)]
    simp only []
    rw [if_pos hlen, collectFields_eq entries hwt]
  · unfold getNormalizedWeights
    simp only []
    rw [if_pos hlen, collectWeights_eq entries hwt]

theorem c9_witness :
    getNormalizedField (.arr [.obj [("field", .str "title"), ("weight", .num 3)],
      .str "body", .obj [("field", .str "tags")]]) =
      .ok (some [.str "title", .str "body", .str "tags"]) ∧
    getNormalizedWeights (.arr [.obj [("field", .str "title"), ("weight", .num 3)],
      .str "body", .obj [("field", .str "tags")]]) =
      .ok (some [.num 3, .num 1, .num 1]) := by
  obtain ⟨h1, h2, _⟩ := c9_field_weight_alignment
    [.obj [("field", .str "title"), ("weight", .num 3)], .str "body",
     .obj [("field", .str "tags")]]
    (by simp) (by decide)
  exact ⟨h1, h2⟩

/-- C9, counterexample to the claim as stated: on the **empty** field-spec
array both functions return `undefined` (modelled as `none`), not lists,
so the weight list does not "always have the input array's length". -/
theorem c9_counterexample :
    getNormalizedField (.arr []) = .ok none ∧
    getNormalizedWeights (.arr []) = .ok none ∧
    ¬∃ ws, getNormalizedWeights (.arr []) = .ok (some ws) := by
  refine ⟨rfl, rfl, ?_⟩
  rintro ⟨ws, hw⟩
  rw [show getNormalizedWeights (.arr []) = .ok none from rfl] at hw
  exact absurd hw (by simp)

/-! ## C6: parseCompAggToHits -/

theorem mapJsM_ok_length {α β : Type} {f : α → JsM β} :
    ∀ {xs : List α} {ys : List β}, mapJsM f xs = Except.ok ys → ys.length = xs.length := by
  intro xs
  induction xs with
  | nil =>
    intro ys h
    simp only [mapJsM] at h
    cases h
    rfl
  | cons x rest ih =>
    intro ys h
    simp only [mapJsM] at h
    split at h
    · exact absurd h (by simp)
    · rename_i y hy
      split at h
      · exact absurd h (by simp)
      · rename_i ys2 hys
        cases h
        simp [ih hys]

theorem mapJsM_ok_get {α β : Type} {f : α → JsM β} :
    ∀ {xs : List α} {ys : List β}, mapJsM f xs = Except.ok ys →
      ∀ i (hi : i < xs.length) (hi2 : i < ys.length),
        f (xs.get ⟨i, hi⟩) = Except.ok (ys.get ⟨i, hi2⟩) := by
  intro xs
  induction xs with
  | nil =>
    intro ys h i hi hi2
    exact absurd hi (by simp)
  | cons x rest ih =>
    intro ys h i hi hi2
    simp only [mapJsM] at h
    split at h
    · exact absurd h (by simp)
    · rename_i y hy
      split at h
      · exact absurd h (by simp)
      · rename_i ys2 hys
        cases h
        cases i with
        | zero => exact hy
        | succ j => exact ih hys j (Nat.lt_of_succ_lt_succ hi) (Nat.lt_of_succ_lt_succ hi2)

/-- C6: `parseCompAggToHits(aggFieldName, buckets)` maps each bucket
one-to-one and in order to `{_doc_count, _key, ...data}` (`_key` is
`key[aggFieldName]` when defined, else `key` itself); an absent `buckets`
argument yields `[]`; the spec's `colorAgg` example and the scalar-key
case come out as stated. -/
theorem c6_parse_comp_agg_to_hits :
    (∀ agg : String, parseCompAggToHits agg none = .ok []) ∧
    (∀ (agg : String) (bs hits : List JValue),
      parseCompAggToHits agg (some bs) = .ok hits →
      hits.length = bs.length ∧
      ∀ i (hi : i < bs.length) (hi2 : i < hits.length),
        bucketToHit agg (bs.get ⟨i, hi⟩) = .ok (hits.get ⟨i, hi2⟩)) ∧
    parseCompAggToHits "colorAgg"
      (some [.obj [("doc_count", .num 4), ("key", .obj [("colorAgg", .str "red")]),
        ("colorAgg", .obj [("avgPrice", .num 10)])]]) =
      .ok [.obj [("_doc_count", .num 4), ("_key", .str "red"), ("avgPrice", .num 10)]] ∧
    parseCompAggToHits "colorAgg"
      (some [.obj [("doc_count", .num 2), ("key", .str "blue"),
        ("colorAgg", .obj [("avg", .num 5)])]]) =
      .ok [.obj [("_doc_count", .num 2), ("_key", .str "blue"), ("avg", .num 5)]] := by
  refine ⟨fun agg => rfl, ?_, rfl, rfl⟩
  intro agg bs hits h
  have h2 : mapJsM (bucketToHit agg) bs = .ok hits := h
  exact ⟨mapJsM_ok_length h2, fun i hi hi2 => mapJsM_ok_get h2 i hi hi2⟩

theorem c6_witness :
    ([JValue.obj [("_doc_count", .num 4), ("_key", .str "red"),
        ("avgPrice", .num 10)]].length =
      [JValue.obj [("doc_count", .num 4), ("key", .obj [("colorAgg", .str "red")]),
        ("colorAgg", .obj [("avgPrice", .num 10)])]].length) ∧
    bucketToHit "colorAgg"
      (.obj [("doc_count", .num 4), ("key", .obj [("colorAgg", .str "red")]),
        ("colorAgg", .obj [("avgPrice", .num 10)])]) =
      .ok (.obj [("_doc_count", .num 4), ("_key", .str "red"), ("avgPrice", .num 10)]) := by
  obtain ⟨hlen, hget⟩ := c6_parse_comp_agg_to_hits.2.1 "colorAgg"
    [.obj [("doc_count", .num 4), ("key", .obj [("colorAgg", .str "red")]),
      ("colorAgg", .obj [("avgPrice", .num 10)])]]
    [.obj [("_doc_count", .num 4), ("_key", .str "red"), ("avgPrice", .num 10)]]
    (by rfl)
  exact ⟨hlen, hget 0 (by decide) (by decide)⟩

/-! ## C7: nested path resolution -/

theorem parseFieldItems_nil (cv : String) (skip d : Bool) (children : String)
    (source : JValue) (st : SuggState) :
    parseFieldItems cv skip d [] children source st = .ok st := by
  rw [parseFieldItems.eq_def]

theorem parseFieldItems_step {cv : String} {skip d : Bool} {x : JValue}
    {rest : List JValue} {children : String} {source : JValue} {st st' : SuggState} {b : Bool}
    (h : parseField cv skip d x children source st = .ok (st', b)) :
    parseFieldItems cv skip d (x :: rest) children source st =
      parseFieldItems cv skip d rest children source st' := by
  conv_lhs => rw [parseFieldItems.eq_def]
  simp only []
  rw [h]

theorem parseField_obj (cv : String) (skip d : Bool) (fs : List (String × JValue))
    (field : String) (src : JValue) (st : SuggState) :
    parseField cv skip d (.obj fs) field src st =
      parseFieldFound cv skip d (.obj fs)
        (ownGet (.obj fs) ((jsSplit field '.').headD "")) field src st := by
  rw [parseField.eq_def]
  rfl

theorem parseFieldFound_nested_arr {cv : String} {skip d : Bool} {ps : JValue}
    {items : List JValue} {field : String} {src : JValue} {st st' : SuggState}
    (hlen : (jsSplit field '.').length > 1)
    (hrec : parseFieldItems cv skip d items
      (String.mk (field.data.drop (((jsSplit field '.').headD "").data.length + 1))) src st =
      .ok st') :
    parseFieldFound cv skip d ps (.arr items) field src st = .ok (st', false) := by
  conv_lhs => rw [parseFieldFound.eq_def]
  simp only []
  rw [if_pos (show truthy (JValue.arr items) = true from rfl), if_pos hlen]
  rw [hrec]

theorem parseFieldFound_nested_other {cv : String} {skip d : Bool} {ps label : JValue}
    {field : String} {src : JValue} {st st' : SuggState} {b : Bool}
    (hlen : (jsSplit field '.').length > 1)
    (htr : truthy label = true)
    (hnotarr : ∀ items, label ≠ JValue.arr items)
    (hrec : parseField cv skip d label
      (String.mk (field.data.drop (((jsSplit field '.').headD "").data.length + 1))) src st =
      .ok (st', b)) :
    parseFieldFound cv skip d ps label field src st = .ok (st', false) := by
  conv_lhs => rw [parseFieldFound.eq_def]
  simp only []
  rw [if_pos htr, if_pos hlen]
  rcases label with _ | _ | b2 | n | s | xs | gs
  all_goals try (exact (hnotarr _ rfl).elim)
  all_goals rw [hrec]

/-- C7: resolving `"a.b.c"` against `{a:{b:[{c:"x"},{c:"y"}]}}` yields
exactly the terminal candidates `"x"` and `"y"` (an array met at an
intermediate segment is traversed element-wise with the remaining path);
a plain object at a terminal segment yields no candidate; an array at a
terminal segment is a multi-value terminal whose elements are offered
individually (here the term `"v"` selects the element `"v"`). -/
theorem c7_nested_path_resolution :
    (parseField "" false true
      (.obj [("a", .obj [("b", .arr [.obj [("c", .str "x")], .obj [("c", .str "y")]])])])
      "a.b.c"
      (.obj [("a", .obj [("b", .arr [.obj [("c", .str "x")], .obj [("c", .str "y")]])])])
      ⟨[], []⟩ =
    .ok (⟨[⟨.str "x", .str "x",
            .obj [("a", .obj [("b", .arr [.obj [("c", .str "x")], .obj [("c", .str "y")]])])]⟩,
           ⟨.str "y", .str "y",
            .obj [("a", .obj [("b", .arr [.obj [("c", .str "x")], .obj [("c", .str "y")]])])]⟩],
          [.str "x", .str "y"]⟩, false)) ∧
    (parseField "" false true (.obj [("a", .obj [("b", .num 1)])]) "a"
      (.obj [("a", .obj [("b", .num 1)])]) ⟨[], []⟩ =
    .ok (⟨[], []⟩, false)) ∧
    (parseField "v" false true (.obj [("a", .arr [.str "u", .str "v"])]) "a"
      (.obj [("a", .arr [.str "u", .str "v"])]) ⟨[], []⟩ =
    .ok (⟨[⟨.str "v", .str "v", .obj [("a", .arr [.str "u", .str "v"])]⟩],
          [.str "v"]⟩, true)) := by
  have ha : parseField "" false true (.obj [("c", .str "x")]) "c"
      (.obj [("a", .obj [("b", .arr [.obj [("c", .str "x")], .obj [("c", .str "y")]])])])
      ⟨[], []⟩ =
      .ok (⟨[⟨.str "x", .str "x",
              .obj [("a", .obj [("b", .arr [.obj [("c", .str "x")], .obj [("c", .str "y")]])])]⟩],
            [.str "x"]⟩, true) := by
    rw [parseField.eq_def, parseFieldFound.eq_def]
    rfl
  have hb : parseField "" false true (.obj [("c", .str "y")]) "c"
      (.obj [("a", .obj [("b", .arr [.obj [("c", .str "x")], .obj [("c", .str "y")]])])])
      ⟨[⟨.str "x", .str "x",
         .obj [("a", .obj [("b", .arr [.obj [("c", .str "x")], .obj [("c", .str "y")]])])]⟩],
       [.str "x"]⟩ =
      .ok (⟨[⟨.str "x", .str "x",
              .obj [("a", .obj [("b", .arr [.obj [("c", .str "x")], .obj [("c", .str "y")]])])]⟩,
             ⟨.str "y", .str "y",
              .obj [("a", .obj [("b", .arr [.obj [("c", .str "x")], .obj [("c", .str "y")]])])]⟩],
            [.str "x", .str "y"]⟩, true) := by
    rw [parseField.eq_def, parseFieldFound.eq_def]
    rfl
  have hi : parseFieldItems "" false true [.obj [("c", .str "x")], .obj [("c", .str "y")]] "c"
      (.obj [("a", .obj [("b", .arr [.obj [("c", .str "x")], .obj [("c", .str "y")]])])])
      ⟨[], []⟩ =
      .ok ⟨[⟨.str "x", .str "x",
             .obj [("a", .obj [("b", .arr [.obj [("c", .str "x")], .obj [("c", .str "y")]])])]⟩,
            ⟨.str "y", .str "y",
             .obj [("a", .obj [("b", .arr [.obj [("c", .str "x")], .obj [("c", .str "y")]])])]⟩],
           [.str "x", .str "y"]⟩ := by
    rw [parseFieldItems_step ha, parseFieldItems_step hb, parseFieldItems_nil]
  have hmid : parseField "" false true
      (.obj [("b", .arr [.obj [("c", .str "x")], .obj [("c", .str "y")]])])
      "b.c"
      (.obj [("a", .obj [("b", .arr [.obj [("c", .str "x")], .obj [("c", .str "y")]])])])
      ⟨[], []⟩ =
      .ok (⟨[⟨.str "x", .str "x",
              .obj [("a", .obj [("b", .arr [.obj [("c", .str "x")], .obj [("c", .str "y")]])])]⟩,
             ⟨.str "y", .str "y",
              .obj [("a", .obj [("b", .arr [.obj [("c", .str "x")], .obj [("c", .str "y")]])])]⟩],
            [.str "x", .str "y"]⟩, false) := by
    rw [parseField_obj]
    rw [show ownGet (.obj [("b", .arr [.obj [("c", .str "x")], .obj [("c", .str "y")]])])
      ((jsSplit "b.c" '.').headD "") =
      (.arr [.obj [("c", .str "x")], .obj [("c", .str "y")]]) from rfl]
    exact parseFieldFound_nested_arr (by decide) hi
  refine ⟨?_, ?_, ?_⟩
  · rw [parseField_obj]
    rw [show ownGet
      (.obj [("a", .obj [("b", .arr [.obj [("c", .str "x")], .obj [("c", .str "y")]])])])
      ((jsSplit "a.b.c" '.').headD "") =
      (.obj [("b", .arr [.obj [("c", .str "x")], .obj [("c", .str "y")]])]) from rfl]
    exact parseFieldFound_nested_other (by decide) rfl (fun _ h => JValue.noConfusion h) hmid
  · rw [parseField.eq_def, parseFieldFound.eq_def]
    rfl
  · rw [parseField.eq_def, parseFieldFound.eq_def]
    rfl

/-! ## C8: parseHits and highlightResults -/

theorem getField_cons (k' : String) (v' : JValue) (rest : List (String × JValue)) (m : String) :
    getField ((k', v') :: rest) m = if k' = m then v' else getField rest m := by
  by_cases h : k' = m
  · subst h
    simp [getField, List.find?]
  · simp [getField, List.find?, h]

theorem setProp_cons (k' : String) (v' : JValue) (rest : List (String × JValue))
    (k : String) (v : JValue) :
    setProp ((k', v') :: rest) k v =
      if k' = k then (k, v) :: rest else (k', v') :: setProp rest k v := by
  by_cases h : k' = k <;> simp [setProp, h]

theorem getField_setProp_self (d : List (String × JValue)) (k : String) (v : JValue) :
    getField (setProp d k v) k = v := by
  induction d with
  | nil => simp [setProp, getField, List.find?]
  | cons p rest ih =>
    obtain ⟨k', v'⟩ := p
    rw [setProp_cons]
    by_cases h : k' = k
    · rw [if_pos h, getField_cons, if_pos rfl]
    · rw [if_neg h, getField_cons, if_neg h]
      exact ih

theorem getField_setProp_other (d : List (String × JValue)) (k : String) (v : JValue)
    (m : String) (hm : m ≠ k) :
    getField (setProp d k v) m = getField d m := by
  induction d with
  | nil =>
    rw [show setProp ([] : List (String × JValue)) k v = [(k, v)] from rfl,
      getField_cons, if_neg (fun e => hm e.symm)]
  | cons p rest ih =>
    obtain ⟨k', v'⟩ := p
    rw [setProp_cons]
    by_cases h : k' = k
    · subst h
      rw [if_pos rfl, getField_cons, getField_cons, if_neg (fun e => hm e.symm),
        if_neg (fun e => hm e.symm)]
    · rw [if_neg h, getField_cons, getField_cons, ih]

theorem mem_keys_setProp (d : List (String × JValue)) (k : String) (v : JValue) (m : String) :
    m ∈ (setProp d k v).map Prod.fst ↔ m ∈ d.map Prod.fst ∨ m = k := by
  induction d with
  | nil => simp [setProp]
  | cons p rest ih =>
    obtain ⟨k', v'⟩ := p
    rw [setProp_cons]
    by_cases h : k' = k
    · rw [if_pos h]
      subst h
      simp
      tauto
    · rw [if_neg h]
      simp [ih]
      tauto

theorem setProp_not_mem (d : List (String × JValue)) (k : String) (v : JValue)
    (h : k ∉ d.map Prod.fst) :
    setProp d k v = d ++ [(k, v)] := by
  induction d with
  | nil => rfl
  | cons p rest ih =>
    obtain ⟨k', v'⟩ := p
    simp at h
    rw [setProp_cons, if_neg (fun e => h.1 e.symm), ih (by simpa using h.2)]
    rfl

theorem spread_append (sfs : List (String × JValue)) :
    ∀ base : List (String × JValue),
      (∀ k ∈ sfs.map Prod.fst, k ∉ base.map Prod.fst) →
      (sfs.map Prod.fst).Nodup →
      sfs.foldl (fun b kv => setProp b kv.1 kv.2) base = base ++ sfs := by
  induction sfs with
  | nil => intro base _ _; simp
  | cons p rest ih =>
    intro base hdisj hnd
    obtain ⟨k, v⟩ := p
    have hk_not : k ∉ base.map Prod.fst := hdisj k (by simp)
    have hnd1 : k ∉ rest.map Prod.fst := by
      rw [List.map_cons, List.nodup_cons] at hnd
      exact hnd.1
    have hnd2 : (rest.map Prod.fst).Nodup := by
      rw [List.map_cons, List.nodup_cons] at hnd
      exact hnd.2
    simp only [List.foldl_cons]
    rw [setProp_not_mem base k v hk_not]
    rw [ih (base ++ [(k, v)]) ?hd hnd2]
    · simp
    case hd =>
      intro k2 hk2
      simp only [List.map_append, List.map_cons, List.map_nil, List.mem_append,
        List.mem_singleton]
      rintro (hb | he)
      · exact hdisj k2 (by simp [hk2]) hb
      · exact hnd1 (he ▸ hk2)

theorem spreadInto_obj_nodup {fs : List (String × JValue)}
    (h : (fs.map Prod.fst).Nodup) :
    spreadInto [] (.obj fs) = fs := by
  have := spread_append fs [] (by simp) h
  simpa using this

theorem foldAssign_not_mem (data : List (String × JValue)) :
    ∀ (keys : List String) (base : List (String × JValue)) (m : String), m ∉ keys →
      getField (keys.foldl (fun obj key => setProp obj key (getField data key)) base) m =
      getField base m := by
  intro keys
  induction keys with
  | nil => intro base m _; rfl
  | cons k rest ih =>
    intro base m hm
    simp only [List.foldl_cons]
    rw [ih _ m (fun h => hm (List.mem_cons_of_mem _ h))]
    exact getField_setProp_other _ _ _ _ (fun e => hm (e ▸ List.mem_cons_self k rest))

theorem foldAssign_mem (data : List (String × JValue)) :
    ∀ (keys : List String) (base : List (String × JValue)) (m : String),
      m ∈ keys → keys.Nodup →
      getField (keys.foldl (fun obj key => setProp obj key (getField data key)) base) m =
      getField data m := by
  intro keys
  induction keys with
  | nil => intro base m hm _; exact absurd hm (by simp)
  | cons k rest ih =>
    intro base m hm hnd
    simp only [List.foldl_cons]
    rcases List.mem_cons.mp hm with he | hr
    · subst he
      rw [foldAssign_not_mem data rest _ m (by rw [List.nodup_cons] at hnd; exact hnd.1)]
      exact getField_setProp_self base m (getField data m)
    · exact ih _ m hr (by rw [List.nodup_cons] at hnd; exact hnd.2)

theorem foldAssign_keys (data : List (String × JValue)) :
    ∀ (keys : List String) (base : List (String × JValue)) (m : String),
      m ∈ (keys.foldl (fun obj key => setProp obj key (getField data key)) base).map Prod.fst ↔
      m ∈ base.map Prod.fst ∨ m ∈ keys := by
  intro keys
  induction keys with
  | nil => intro base m; simp
  | cons k rest ih =>
    intro base m
    simp only [List.foldl_cons]
    rw [ih, mem_keys_setProp]
    simp [List.mem_cons]
    tauto

theorem keys_setProp (d : List (String × JValue)) (k : String) (v : JValue) :
    (setProp d k v).map Prod.fst =
      if k ∈ d.map Prod.fst then d.map Prod.fst else d.map Prod.fst ++ [k] := by
  induction d with
  | nil => simp [setProp]
  | cons p rest ih =>
    obtain ⟨k2, v2⟩ := p
    rw [setProp_cons]
    by_cases h : k2 = k
    · rw [if_pos h]
      subst h
      simp
    · rw [if_neg h]
      simp only [List.map_cons, ih]
      by_cases hm : k ∈ rest.map Prod.fst
      · rw [if_pos hm, if_pos (by simp [hm])]
      · rw [if_neg hm, if_neg ?hc]
        · simp
        case hc =>
          simp only [List.mem_cons]
          rintro (he | hmem)
          · exact h he.symm
          · exact hm hmem

theorem nodup_keys_setProp {d : List (String × JValue)} (k : String) (v : JValue)
    (h : (d.map Prod.fst).Nodup) : ((setProp d k v).map Prod.fst).Nodup := by
  rw [keys_setProp]
  split
  · exact h
  · rename_i hk
    refine List.Nodup.append h (List.nodup_singleton k) ?_
    intro a ha hb
    rw [List.mem_singleton] at hb
    exact hk (hb ▸ ha)

theorem getField_of_mem_nodup {fs : List (String × JValue)} {k : String} {v : JValue}
    (hmem : (k, v) ∈ fs) (hnd : (fs.map Prod.fst).Nodup) : getField fs k = v := by
  induction fs with
  | nil => simp at hmem
  | cons p rest ih =>
    obtain ⟨k2, v2⟩ := p
    rw [getField_cons]
    rcases List.mem_cons.mp hmem with he | hr
    · obtain ⟨h1, h2⟩ := Prod.mk.inj he
      rw [if_pos h1.symm]
      exact h2.symm
    · have hk : ¬k2 = k := by
        rw [List.map_cons, List.nodup_cons] at hnd
        intro e
        have hin : k ∈ rest.map Prod.fst := List.mem_map_of_mem Prod.fst hr
        exact hnd.1 (e ▸ hin)
      rw [if_neg hk]
      exact ih hr (by rw [List.map_cons, List.nodup_cons] at hnd; exact hnd.2)

theorem mem_keys_of_getField_ne {fs : List (String × JValue)} {k : String}
    (h : ¬getField fs k = .undef) : k ∈ fs.map Prod.fst := by
  induction fs with
  | nil => exact absurd rfl h
  | cons p rest ih =>
    obtain ⟨k2, v2⟩ := p
    rw [getField_cons] at h
    by_cases e : k2 = k
    · subst e
      simp
    · rw [if_neg e] at h
      simp [ih h]

theorem foldFrag_not_mem (hfs : List (String × JValue)) :
    ∀ (keys : List String) (base : List (String × JValue)) (m : String), m ∉ keys →
      getField (keys.foldl (fun M2 k => setProp M2 k (firstFragOf (getField hfs k))) base) m =
      getField base m := by
  intro keys
  induction keys with
  | nil => intro base m _; rfl
  | cons k rest ih =>
    intro base m hm
    simp only [List.foldl_cons]
    rw [ih _ m (fun h => hm (List.mem_cons_of_mem _ h))]
    exact getField_setProp_other _ _ _ _ (fun e => hm (e ▸ List.mem_cons_self k rest))

theorem foldFrag_mem (hfs : List (String × JValue)) :
    ∀ (keys : List String) (base : List (String × JValue)) (m : String),
      m ∈ keys → keys.Nodup →
      getField (keys.foldl (fun M2 k => setProp M2 k (firstFragOf (getField hfs k))) base) m =
      firstFragOf (getField hfs m) := by
  intro keys
  induction keys with
  | nil => intro base m hm _; exact absurd hm (by simp)
  | cons k rest ih =>
    intro base m hm hnd
    simp only [List.foldl_cons]
    rcases List.mem_cons.mp hm with he | hr
    · subst he
      rw [foldFrag_not_mem hfs rest _ m (by rw [List.nodup_cons] at hnd; exact hnd.1)]
      exact getField_setProp_self base m (firstFragOf (getField hfs m))
    · exact ih _ m hr (by rw [List.nodup_cons] at hnd; exact hnd.2)

theorem foldFrag_keys (hfs : List (String × JValue)) :
    ∀ (keys : List String) (base : List (String × JValue)) (m : String),
      m ∈ ((keys.foldl (fun M2 k => setProp M2 k (firstFragOf (getField hfs k))) base)).map
        Prod.fst ↔
      m ∈ base.map Prod.fst ∨ m ∈ keys := by
  intro keys
  induction keys with
  | nil => intro base m; simp
  | cons k rest ih =>
    intro base m
    simp only [List.foldl_cons]
    rw [ih, mem_keys_setProp]
    simp [List.mem_cons]
    tauto

theorem nodup_keys_foldFrag (hfs : List (String × JValue)) :
    ∀ (keys : List String) (base : List (String × JValue)),
      (base.map Prod.fst).Nodup →
      (((keys.foldl (fun M2 k => setProp M2 k (firstFragOf (getField hfs k))) base)).map
        Prod.fst).Nodup := by
  intro keys
  induction keys with
  | nil => intro base h; exact h
  | cons k rest ih =>
    intro base h
    simp only [List.foldl_cons]
    exact ih _ (nodup_keys_setProp _ _ h)

theorem hlFold_run (hfs : List (String × JValue)) :
    ∀ (keys : List String) (d M : List (String × JValue)),
      (∀ k ∈ keys, jsGet (getField hfs k) "0" = .ok (firstFragOf (getField hfs k))) →
      getField d "_source" = .obj M →
      (M.map Prod.fst).Nodup →
      "_source" ∈ d.map Prod.fst →
      ∃ d2 : List (String × JValue),
        hlFold (.obj hfs) keys d = .ok d2 ∧
        d2.map Prod.fst = d.map Prod.fst ∧
        (∀ t, t ≠ "_source" → getField d2 t = getField d t) ∧
        getField d2 "_source" =
          .obj (keys.foldl (fun M2 k => setProp M2 k (firstFragOf (getField hfs k))) M) := by
  intro keys
  induction keys with
  | nil =>
    intro d M hv hdM hnd hsp
    exact ⟨d, rfl, rfl, fun t _ => rfl, by rw [List.foldl_nil, hdM]⟩
  | cons item rest ih =>
    intro d M hv hdM hnd hsp
    have hstep : hlFold (.obj hfs) (item :: rest) d =
        hlFold (.obj hfs) rest
          (setProp d "_source" (.obj (setProp M item (firstFragOf (getField hfs item))))) := by
      conv_lhs => rw [hlFold.eq_def]
      simp only []
      rw [show jsGet (JValue.obj hfs) item = .ok (getField hfs item) from rfl]
      simp only []
      rw [hv item (List.mem_cons_self _ _)]
      simp only []
      rw [hdM, spreadInto_obj_nodup hnd]
    rw [hstep]
    obtain ⟨d2, h1, h2, h3, h4⟩ := ih
      (setProp d "_source" (.obj (setProp M item (firstFragOf (getField hfs item)))))
      (setProp M item (firstFragOf (getField hfs item)))
      (fun k hk => hv k (List.mem_cons_of_mem _ hk))
      (getField_setProp_self _ _ _)
      (nodup_keys_setProp _ _ hnd)
      (by rw [mem_keys_setProp]; exact Or.inr rfl)
    refine ⟨d2, h1, ?_, ?_, ?_⟩
    · rw [h2, keys_setProp, if_pos hsp]
    · intro t ht
      rw [h3 t ht, getField_setProp_other _ _ _ _ ht]
    · rw [h4]
      simp only [List.foldl_cons]

theorem highlightResults_hl {fs hfs : List (String × JValue)}
    (hnf : (fs.map Prod.fst).Nodup)
    (hhl : getField fs "highlight" = .obj hfs) :
    highlightResults (.obj fs) = hlFold (.obj hfs) (hfs.map Prod.fst) fs := by
  have hdef : highlightResults (.obj fs) =
      (if truthy (getField (spreadInto [] (.obj fs)) "highlight") then
        hlFold (getField (spreadInto [] (.obj fs)) "highlight")
          (jsKeys (getField (spreadInto [] (.obj fs)) "highlight"))
          (spreadInto [] (.obj fs))
      else .ok (spreadInto [] (.obj fs))) := rfl
  rw [hdef, spreadInto_obj_nodup hnf, hhl]
  rw [if_pos (show truthy (JValue.obj hfs) = true from rfl)]
  rfl

theorem highlightResults_no_hl {fs : List (String × JValue)}
    (hnf : (fs.map Prod.fst).Nodup)
    (hhl : truthy (getField fs "highlight") = false) :
    highlightResults (.obj fs) = .ok fs := by
  have hdef : highlightResults (.obj fs) =
      (if truthy (getField (spreadInto [] (.obj fs)) "highlight") then
        hlFold (getField (spreadInto [] (.obj fs)) "highlight")
          (jsKeys (getField (spreadInto [] (.obj fs)) "highlight"))
          (spreadInto [] (.obj fs))
      else .ok (spreadInto [] (.obj fs))) := rfl
  rw [hdef, spreadInto_obj_nodup hnf, hhl]
  simp

theorem parseHitsOne_obj_spec {fs sfs res : List (String × JValue)}
    (hnf : (fs.map Prod.fst).Nodup) (hns : (sfs.map Prod.fst).Nodup)
    (hsrc : getField fs "_source" = .obj sfs)
    (hhl : truthy (getField fs "highlight") = false)
    (hrun : parseHitsOne (.obj fs) = .ok (.obj res)) :
    (∀ m, m ∈ res.map Prod.fst ↔
      m ∈ sfs.map Prod.fst ∨ (m ∈ fs.map Prod.fst ∧ m ≠ "_source")) ∧
    (∀ k, k ∈ fs.map Prod.fst → k ≠ "_source" → getField res k = getField fs k) ∧
    (∀ m, m ∉ fs.map Prod.fst ∨ m = "_source" → getField res m = getField sfs m) := by
  have hone : parseHitsOne (.obj fs) =
      .ok (.obj (((fs.map Prod.fst).filter (fun k => k ≠ "_source")).foldl
        (fun obj key => setProp obj key (getField fs key)) sfs)) := by
    have hdef : parseHitsOne (.obj fs) =
        (match highlightResults (.obj fs) with
         | .error e => .error e
         | .ok data => .ok (.obj (((data.map Prod.fst).filter (fun k => k ≠ "_source")).foldl
             (fun obj key => setProp obj key (getField data key))
             (spreadInto [] (getField data "_source"))))) := rfl
    rw [hdef, highlightResults_no_hl hnf hhl]
    simp only []
    rw [hsrc, spreadInto_obj_nodup hns]
  have hres : res = ((fs.map Prod.fst).filter (fun k => k ≠ "_source")).foldl
      (fun obj key => setProp obj key (getField fs key)) sfs := by
    have h2 := hone.symm.trans hrun
    simpa using h2.symm
  have hfilnd : ((fs.map Prod.fst).filter (fun k => k ≠ "_source")).Nodup :=
    hnf.filter _
  subst hres
  refine ⟨?_, ?_, ?_⟩
  · intro m
    rw [foldAssign_keys]
    simp [List.mem_filter]
  · intro k hk hne
    exact foldAssign_mem fs _ sfs k (List.mem_filter.mpr ⟨hk, by simp [hne]⟩) hfilnd
  · intro m hm
    refine foldAssign_not_mem fs _ sfs m ?_
    intro hmem
    obtain ⟨h1, h2⟩ := List.mem_filter.mp hmem
    simp at h2
    rcases hm with h3 | h3
    · exact h3 h1
    · exact h2 h3

theorem parseHitsOne_obj_hl_spec {fs sfs hfs res : List (String × JValue)}
    (hnf : (fs.map Prod.fst).Nodup) (hns : (sfs.map Prod.fst).Nodup)
    (hnh : (hfs.map Prod.fst).Nodup)
    (hsrc : getField fs "_source" = .obj sfs)
    (hhl : getField fs "highlight" = .obj hfs)
    (hvals : ∀ p ∈ hfs, ∃ frags, p.2 = JValue.arr frags)
    (hrun : parseHitsOne (.obj fs) = .ok (.obj res)) :
    (∀ m, m ∈ res.map Prod.fst ↔
      (m ∈ sfs.map Prod.fst ∨ m ∈ hfs.map Prod.fst) ∨
      (m ∈ fs.map Prod.fst ∧ m ≠ "_source")) ∧
    (∀ k, k ∈ fs.map Prod.fst → k ≠ "_source" → getField res k = getField fs k) ∧
    (∀ k frags, (k, JValue.arr frags) ∈ hfs → k ∉ fs.map Prod.fst →
      getField res k = frags.getD 0 .undef) ∧
    (∀ m, (m ∉ fs.map Prod.fst ∨ m = "_source") → m ∉ hfs.map Prod.fst →
      getField res m = getField sfs m) := by
  have hv : ∀ k ∈ hfs.map Prod.fst,
      jsGet (getField hfs k) "0" = .ok (firstFragOf (getField hfs k)) := by
    intro k hk
    obtain ⟨⟨k2, v⟩, hp, he⟩ := List.mem_map.mp hk
    have he2 : k2 = k := he
    subst he2
    obtain ⟨frags, hfr⟩ := hvals _ hp
    have hfr2 : v = JValue.arr frags := hfr
    subst hfr2
    rw [getField_of_mem_nodup hp hnh]
    rfl
  have hsps : "_source" ∈ fs.map Prod.fst :=
    mem_keys_of_getField_ne (by rw [hsrc]; exact fun he => JValue.noConfusion he)
  obtain ⟨d2, hfold, hkeys, hother, hsrc2⟩ :=
    hlFold_run hfs (hfs.map Prod.fst) fs sfs hv hsrc hns hsps
  have hhres : highlightResults (.obj fs) = .ok d2 := by
    rw [highlightResults_hl hnf hhl]
    exact hfold
  have hone : parseHitsOne (.obj fs) =
      .ok (.obj (((d2.map Prod.fst).filter (fun k => k ≠ "_source")).foldl
        (fun obj key => setProp obj key (getField d2 key))
        (spreadInto [] (getField d2 "_source")))) := by
    have hdef : parseHitsOne (.obj fs) =
        (match highlightResults (.obj fs) with
         | .error e => .error e
         | .ok data => .ok (.obj (((data.map Prod.fst).filter (fun k => k ≠ "_source")).foldl
             (fun obj key => setProp obj key (getField data key))
             (spreadInto [] (getField data "_source"))))) := rfl
    rw [hdef, hhres]
  have hnm : ((((hfs.map Prod.fst).foldl
      (fun M2 k => setProp M2 k (firstFragOf (getField hfs k))) sfs)).map Prod.fst).Nodup :=
    nodup_keys_foldFrag hfs _ sfs hns
  have hone2 : parseHitsOne (.obj fs) =
      .ok (.obj (((fs.map Prod.fst).filter (fun k => k ≠ "_source")).foldl
        (fun obj key => setProp obj key (getField d2 key))
        ((hfs.map Prod.fst).foldl
          (fun M2 k => setProp M2 k (firstFragOf (getField hfs k))) sfs))) := by
    rw [hone, hkeys, hsrc2, spreadInto_obj_nodup hnm]
  have hres : res = ((fs.map Prod.fst).filter (fun k => k ≠ "_source")).foldl
      (fun obj key => setProp obj key (getField d2 key))
      ((hfs.map Prod.fst).foldl
        (fun M2 k => setProp M2 k (firstFragOf (getField hfs k))) sfs) := by
    have h2 := hone2.symm.trans hrun
    simpa using h2.symm
  have hfilnd : ((fs.map Prod.fst).filter (fun k => k ≠ "_source")).Nodup := hnf.filter _
  subst hres
  refine ⟨?_, ?_, ?_, ?_⟩
  · intro m
    rw [foldAssign_keys d2, foldFrag_keys hfs]
    simp only [List.mem_filter, decide_eq_true_eq]
  · intro k hk hne
    rw [foldAssign_mem d2 _ _ k (List.mem_filter.mpr ⟨hk, by simp [hne]⟩) hfilnd]
    exact hother k hne
  · intro k frags hkf hknot
    have hnotfil : k ∉ (fs.map Prod.fst).filter (fun k2 => k2 ≠ "_source") := by
      intro hmem
      exact hknot (List.mem_filter.mp hmem).1
    rw [foldAssign_not_mem d2 _ _ k hnotfil]
    rw [foldFrag_mem hfs _ _ k (List.mem_map_of_mem Prod.fst hkf) hnh]
    rw [getField_of_mem_nodup hkf hnh]
    rfl
  · intro m hm hmh
    have hnotfil : m ∉ (fs.map Prod.fst).filter (fun k2 => k2 ≠ "_source") := by
      intro hmem
      obtain ⟨h1, h2⟩ := List.mem_filter.mp hmem
      simp at h2
      rcases hm with h3 | h3
      · exact h3 h1
      · exact h2 h3
    rw [foldAssign_not_mem d2 _ _ m hnotfil]
    exact foldFrag_not_mem hfs _ _ m hmh

/-- C8: `parseHits` produces one record per hit, in order; for a
well-formed hit (distinct keys) the result's keys are the keys of the
highlight-merged `_source` plus every top-level key except `_source`, a
top-level metadata value overrides the merged-source value on a name
collision, every field named in the hit's highlight map (and not shadowed
by metadata) holds only the first highlight fragment (trailing fragments
discarded), untouched fields keep their `_source` value, and when no
highlight exists the source is untouched; the concrete run shows a
two-fragment highlight keeping only the first fragment. -/
theorem c8_parse_hits_shape :
    (parseHits none = .ok []) ∧
    (∀ hs rs, parseHits (some hs) = .ok rs →
      rs.length = hs.length ∧
      ∀ i (hi : i < hs.length) (hi2 : i < rs.length),
        parseHitsOne (hs.get ⟨i, hi⟩) = .ok (rs.get ⟨i, hi2⟩)) ∧
    (∀ fs sfs res : List (String × JValue),
      (fs.map Prod.fst).Nodup →
      (sfs.map Prod.fst).Nodup →
      getField fs "_source" = .obj sfs →
      truthy (getField fs "highlight") = false →
      parseHitsOne (.obj fs) = .ok (.obj res) →
      (∀ m, m ∈ res.map Prod.fst ↔
        m ∈ sfs.map Prod.fst ∨ (m ∈ fs.map Prod.fst ∧ m ≠ "_source")) ∧
      (∀ k, k ∈ fs.map Prod.fst → k ≠ "_source" → getField res k = getField fs k) ∧
      (∀ m, m ∉ fs.map Prod.fst ∨ m = "_source" → getField res m = getField sfs m)) ∧
    (∀ fs sfs hfs res : List (String × JValue),
      (fs.map Prod.fst).Nodup →
      (sfs.map Prod.fst).Nodup →
      (hfs.map Prod.fst).Nodup →
      getField fs "_source" = .obj sfs →
      getField fs "highlight" = .obj hfs →
      (∀ p ∈ hfs, ∃ frags, p.2 = JValue.arr frags) →
      parseHitsOne (.obj fs) = .ok (.obj res) →
      (∀ m, m ∈ res.map Prod.fst ↔
        (m ∈ sfs.map Prod.fst ∨ m ∈ hfs.map Prod.fst) ∨
        (m ∈ fs.map Prod.fst ∧ m ≠ "_source")) ∧
      (∀ k, k ∈ fs.map Prod.fst → k ≠ "_source" → getField res k = getField fs k) ∧
      (∀ k frags, (k, JValue.arr frags) ∈ hfs → k ∉ fs.map Prod.fst →
        getField res k = frags.getD 0 .undef) ∧
      (∀ m, (m ∉ fs.map Prod.fst ∨ m = "_source") → m ∉ hfs.map Prod.fst →
        getField res m = getField sfs m)) ∧
    parseHits (some [.obj [("_id", .str "1"),
        ("_source", .obj [("title", .str "old"), ("body", .str "b")]),
        ("highlight", .obj [("title", .arr [.str "em-new", .str "frag2"])])]]) =
      .ok [.obj [("title", .str "em-new"), ("body", .str "b"), ("_id", .str "1"),
        ("highlight", .obj [("title", .arr [.str "em-new", .str "frag2"])])]] := by
  refine ⟨rfl, ?_, ?_, ?_, rfl⟩
  · intro hs rs h
    have h2 : mapJsM parseHitsOne hs = .ok rs := h
    exact ⟨mapJsM_ok_length h2, fun i hi hi2 => mapJsM_ok_get h2 i hi hi2⟩
  · intro fs sfs res hnf hns hsrc hhl hrun
    exact parseHitsOne_obj_spec hnf hns hsrc hhl hrun
  · intro fs sfs hfs res hnf hns hnh hsrc hhl hvals hrun
    exact parseHitsOne_obj_hl_spec hnf hns hnh hsrc hhl hvals hrun

theorem c8_witness :
    (getField [("title", JValue.str "t"), ("body", .str "b"), ("_id", .str "1")] "_id" =
      getField [("_id", JValue.str "1"),
        ("_source", .obj [("title", .str "t"), ("body", .str "b")])] "_id") ∧
    (getField [("title", JValue.str "t"), ("body", .str "b"), ("_id", .str "1")] "title" =
      getField [("title", JValue.str "t"), ("body", .str "b")] "title") ∧
    (getField [("title", JValue.str "new1"), ("body", .str "b"), ("_id", .str "1"),
        ("highlight", .obj [("title", .arr [.str "new1", .str "new2"])])] "title" =
      ([JValue.str "new1", .str "new2"]).getD 0 .undef) ∧
    (getField [("title", JValue.str "new1"), ("body", .str "b"), ("_id", .str "1"),
        ("highlight", .obj [("title", .arr [.str "new1", .str "new2"])])] "_id" =
      getField [("_id", JValue.str "1"),
        ("_source", .obj [("title", .str "old"), ("body", .str "b")]),
        ("highlight", .obj [("title", .arr [.str "new1", .str "new2"])])] "_id") ∧
    (getField [("title", JValue.str "new1"), ("body", .str "b"), ("_id", .str "1"),
        ("highlight", .obj [("title", .arr [.str "new1", .str "new2"])])] "body" =
      getField [("title", JValue.str "old"), ("body", .str "b")] "body") := by
  have h := c8_parse_hits_shape.2.2.1
    [("_id", JValue.str "1"), ("_source", .obj [("title", .str "t"), ("body", .str "b")])]
    [("title", JValue.str "t"), ("body", .str "b")]
    [("title", JValue.str "t"), ("body", .str "b"), ("_id", .str "1")]
    (by decide) (by decide) rfl rfl rfl
  have h2 := c8_parse_hits_shape.2.2.2.1
    [("_id", JValue.str "1"),
     ("_source", .obj [("title", .str "old"), ("body", .str "b")]),
     ("highlight", .obj [("title", .arr [.str "new1", .str "new2"])])]
    [("title", JValue.str "old"), ("body", .str "b")]
    [("title", JValue.arr [.str "new1", .str "new2"])]
    [("title", JValue.str "new1"), ("body", .str "b"), ("_id", .str "1"),
     ("highlight", .obj [("title", .arr [.str "new1", .str "new2"])])]
    (by decide) (by decide) (by decide) rfl rfl
    (by
      intro p hp
      rw [List.mem_singleton] at hp
      subst hp
      exact ⟨[.str "new1", .str "new2"], rfl⟩)
    rfl
  refine ⟨h.2.1 "_id" (by decide) (by decide), h.2.2 "title" (Or.inl (by decide)),
    h2.2.2.1 "title" [.str "new1", .str "new2"] (List.mem_singleton.mpr rfl) (by decide),
    h2.2.1 "_id" (by decide) (by decide),
    h2.2.2.2 "body" (Or.inl (by decide)) (by decide)⟩
